import Mathlib

/-!
Verification of the transcription/enrichment pipeline of the
discord-social-analyzer repository, as a shallow embedding in Lean 4.

Conventions:
* timestamps handled by the enrichment queue are whole minutes (`Int`),
  matching the minute-granularity arithmetic in `reset_stale_tasks`;
* timestamps handled by the boundary detector, exchange detector and the
  response-mapping handler are milliseconds (`Int`);
* audio samples are rationals in lieu of floats; RMS comparisons are done on
  squares (for a nonnegative threshold t, sqrt x > t iff x > t*t), which keeps
  every definition executable;
* external I/O (Postgres commits, Qdrant upserts, the embedding service) is
  modelled as always succeeding; the control flow around it is kept.
-/

/-- Row of the enrichment_queue table (src/repositories/enrichment_queue_repo.py,
src/models/database.py). -/
structure QTask where
  id : Nat
  target_type : String
  target_id : String
  task_type : String
  priority : Int
  status : String
  created_at : Int
  started_at : Option Int
  completed_at : Option Int
  attempts : Nat
  error : Option String
deriving DecidableEq, Repr

/-- Relational state of the queue table, with deterministic id allocation. -/
structure QueueState where
  rows : List QTask
  nextId : Nat
deriving DecidableEq, Repr

/-- SQLAlchemy Query.update: rewrite every row satisfying p with f, and return
the rowcount together with the new table. -/
def updateWhere (p : QTask → Bool) (f : QTask → QTask) (s : QueueState) : Nat × QueueState :=
  ((s.rows.filter p).length,
   { s with rows := s.rows.map (fun r => if p r then f r else r) })

/-- claim_task: conditional update, succeeds iff the row is still pending
(enrichment_queue_repo.py lines 77-110). -/
def claim_task (now : Int) (task_id : Nat) (s : QueueState) : Bool × QueueState :=
  let u := updateWhere
    (fun r => r.id == task_id && r.status == "pending")
    (fun r => { r with status := "processing", started_at := some now,
                       attempts := r.attempts + 1 }) s
  (decide (0 < u.1), u.2)

/-- complete_task (enrichment_queue_repo.py lines 112-143). -/
def complete_task (now : Int) (task_id : Nat) (s : QueueState) : Bool × QueueState :=
  let u := updateWhere
    (fun r => r.id == task_id)
    (fun r => { r with status := "complete", completed_at := some now, error := none }) s
  (decide (0 < u.1), u.2)

/-- fail_task (enrichment_queue_repo.py lines 145-177). -/
def fail_task (now : Int) (task_id : Nat) (e : String) (s : QueueState) : Bool × QueueState :=
  let u := updateWhere
    (fun r => r.id == task_id)
    (fun r => { r with status := "failed", completed_at := some now, error := some e }) s
  (decide (0 < u.1), u.2)

/-- The (target_type, target_id, task_type) uniqueness triple. -/
def tripleMatches (tt ti k : String) (r : QTask) : Bool :=
  r.target_type == tt && r.target_id == ti && r.task_type == k

/-- enqueue: return the id of an existing row for the triple without touching
it, otherwise insert a fresh pending row (enrichment_queue_repo.py 179-229). -/
def enqueue (now : Int) (tt ti k : String) (priority : Int) (s : QueueState) :
    Option Nat × QueueState :=
  match s.rows.find? (tripleMatches tt ti k) with
  | some existing => (some existing.id, s)
  | none =>
      let task : QTask :=
        { id := s.nextId, target_type := tt, target_id := ti, task_type := k,
          priority := priority, status := "pending", created_at := now,
          started_at := none, completed_at := none, attempts := 0, error := none }
      (some s.nextId, { rows := s.rows ++ [task], nextId := s.nextId + 1 })

/-- cutoff.replace(minute=cutoff.minute - max_age_minutes): datetime.replace
accepts a minute only in 0..59, so the call raises ValueError (modelled as
none) whenever the current minute of the hour is below max_age_minutes;
otherwise the result equals now - max_age_minutes. -/
def resetStaleCutoff (now : Int) (max_age_minutes : Nat) : Option Int :=
  if (max_age_minutes : Int) ≤ now.emod 60 then some (now - max_age_minutes) else none

/-- reset_stale_tasks (enrichment_queue_repo.py lines 252-286): move processing
rows older than the cutoff back to pending; on the ValueError the exception
handler rolls back and returns 0. A NULL started_at never compares below the
cutoff. -/
def reset_stale_tasks (now : Int) (max_age_minutes : Nat) (s : QueueState) :
    Nat × QueueState :=
  match resetStaleCutoff now max_age_minutes with
  | none => (0, s)
  | some cutoff =>
      updateWhere
        (fun r => r.status == "processing" &&
          (match r.started_at with
           | some t => decide (t < cutoff)
           | none => false))
        (fun r => { r with status := "pending", started_at := none }) s

/-- Histories of queue operations, as in C1. -/
inductive QOp where
  | enq (now : Int) (tt ti k : String) (p : Int)
  | claim (now : Int) (id : Nat)
  | complete (now : Int) (id : Nat)
  | fail (now : Int) (id : Nat) (e : String)
  | reset (now : Int) (maxAge : Nat)
deriving DecidableEq, Repr

def applyOp : QOp → QueueState → QueueState
  | .enq now tt ti k p, s => (enqueue now tt ti k p s).2
  | .claim now i, s => (claim_task now i s).2
  | .complete now i, s => (complete_task now i s).2
  | .fail now i e, s => (fail_task now i e s).2
  | .reset now a, s => (reset_stale_tasks now a s).2

/-- Number of claim(tid) calls in the history that return true. -/
def claimSuccesses (tid : Nat) : List QOp → QueueState → Nat
  | [], _ => 0
  | op :: ops, s =>
      (match op with
       | .claim now i => if i == tid && (claim_task now i s).1 then 1 else 0
       | _ => 0) + claimSuccesses tid ops (applyOp op s)

def QOp.isReset : QOp → Bool
  | .reset _ _ => true
  | _ => false

/-- Well-formedness the repository maintains: distinct ids, all below the
allocator. -/
def QueueState.WF (s : QueueState) : Prop :=
  (s.rows.map QTask.id).Nodup ∧ ∀ r ∈ s.rows, r.id < s.nextId

instance (s : QueueState) : Decidable s.WF := by
  unfold QueueState.WF; infer_instance

/-- No row for this id is pending (so a claim of it cannot succeed). -/
def NoPending (tid : Nat) (s : QueueState) : Prop :=
  ∀ r ∈ s.rows, r.id = tid → r.status ≠ "pending"

/-- Invariant carried between a successful claim and the end of a reset-free
history. -/
def ClaimedInv (tid : Nat) (s : QueueState) : Prop :=
  NoPending tid s ∧ tid < s.nextId

lemma claim_task_true_iff (now : Int) (tid : Nat) (s : QueueState) :
    (claim_task now tid s).1 = true ↔
      ∃ r ∈ s.rows, r.id = tid ∧ r.status = "pending" := by
  simp [claim_task, updateWhere, List.length_pos, List.filter_eq_nil_iff,
    Bool.and_eq_true, beq_iff_eq]

lemma claim_task_false_of_noPending (now : Int) (tid : Nat) (s : QueueState)
    (h : NoPending tid s) : (claim_task now tid s).1 = false := by
  rw [Bool.eq_false_iff]
  intro hc
  rcases (claim_task_true_iff now tid s).mp hc with ⟨r, hr, hid, hst⟩
  exact h r hr hid hst

lemma noPending_after_claim (now : Int) (tid : Nat) (s : QueueState) :
    NoPending tid (claim_task now tid s).2 := by
  intro r' hr' hid
  simp only [claim_task, updateWhere, List.mem_map] at hr'
  rcases hr' with ⟨r, hr, hEq⟩
  by_cases hp : (r.id == tid && r.status == "pending") = true
  · rw [if_pos hp] at hEq
    rw [← hEq]
    intro hcontra
    exact absurd hcontra (by simp)
  · rw [if_neg hp] at hEq
    subst hEq
    simp only [Bool.and_eq_true, beq_iff_eq, not_and] at hp
    exact hp hid

lemma noPending_claim_other (now : Int) (i tid : Nat) (s : QueueState)
    (h : NoPending tid s) : NoPending tid (claim_task now i s).2 := by
  intro r' hr' hid
  simp only [claim_task, updateWhere, List.mem_map] at hr'
  rcases hr' with ⟨r, hr, hEq⟩
  by_cases hp : (r.id == i && r.status == "pending") = true
  · rw [if_pos hp] at hEq
    rw [← hEq]
    simp
  · rw [if_neg hp] at hEq
    subst hEq
    exact h r hr hid

lemma noPending_updateWhere (tid : Nat) (p : QTask → Bool) (f : QTask → QTask)
    (s : QueueState)
    (hf : ∀ r, (f r).id = r.id ∧ (f r).status ≠ "pending")
    (h : NoPending tid s) : NoPending tid (updateWhere p f s).2 := by
  intro r' hr' hid
  simp only [updateWhere, List.mem_map] at hr'
  rcases hr' with ⟨r, hr, hEq⟩
  by_cases hp : p r = true
  · rw [if_pos hp] at hEq
    rw [← hEq]
    exact (hf r).2
  · rw [if_neg hp] at hEq
    subst hEq
    exact h r hr hid

lemma noPending_enqueue (now : Int) (tt ti k : String) (pr : Int)
    (tid : Nat) (s : QueueState) (h : NoPending tid s) (hlt : tid < s.nextId) :
    NoPending tid (enqueue now tt ti k pr s).2 := by
  intro r' hr' hid
  unfold enqueue at hr'
  cases hfind : s.rows.find? (tripleMatches tt ti k) with
  | some existing =>
      rw [hfind] at hr'
      exact h r' hr' hid
  | none =>
      rw [hfind] at hr'
      simp only [List.mem_append, List.mem_singleton] at hr'
      rcases hr' with hr' | hr'
      · exact h r' hr' hid
      · subst hr'
        simp only at hid
        omega

lemma nextId_updateWhere (p : QTask → Bool) (f : QTask → QTask) (s : QueueState) :
    (updateWhere p f s).2.nextId = s.nextId := rfl

lemma nextId_applyOp_mono (op : QOp) (s : QueueState) :
    s.nextId ≤ (applyOp op s).nextId := by
  cases op with
  | enq now tt ti k p =>
      simp only [applyOp]
      unfold enqueue
      cases hfind : s.rows.find? (tripleMatches tt ti k) <;> simp
  | claim now i => exact Nat.le_refl _
  | complete now i => exact Nat.le_refl _
  | fail now i e => exact Nat.le_refl _
  | reset now a =>
      simp only [applyOp]
      unfold reset_stale_tasks
      cases resetStaleCutoff now a <;> simp [updateWhere]

lemma claimedInv_applyOp (tid : Nat) (op : QOp) (s : QueueState)
    (hnr : op.isReset = false) (h : ClaimedInv tid s) :
    ClaimedInv tid (applyOp op s) := by
  rcases h with ⟨hnp, hlt⟩
  refine ⟨?_, Nat.lt_of_lt_of_le hlt (nextId_applyOp_mono op s)⟩
  cases op with
  | enq now tt ti k p => exact noPending_enqueue now tt ti k p tid s hnp hlt
  | claim now i => exact noPending_claim_other now i tid s hnp
  | complete now i =>
      exact noPending_updateWhere tid _ _ s (fun r => ⟨rfl, by simp⟩) hnp
  | fail now i e =>
      exact noPending_updateWhere tid _ _ s (fun r => ⟨rfl, by simp⟩) hnp
  | reset now a => simp [QOp.isReset] at hnr

lemma claimSuccesses_eq_zero (tid : Nat) (ops : List QOp) (s : QueueState)
    (hnr : ∀ op ∈ ops, op.isReset = false) (h : ClaimedInv tid s) :
    claimSuccesses tid ops s = 0 := by
  induction ops generalizing s with
  | nil => rfl
  | cons op ops ih =>
      have hop : op.isReset = false := hnr op (List.mem_cons_self op ops)
      have hrest : claimSuccesses tid ops (applyOp op s) = 0 :=
        ih (applyOp op s) (fun o ho => hnr o (List.mem_cons_of_mem op ho))
          (claimedInv_applyOp tid op s hop h)
      cases op with
      | claim now i =>
          simp only [claimSuccesses, hrest, Nat.add_zero]
          by_cases hi : i = tid
          · subst hi
            rw [claim_task_false_of_noPending now i s h.1]
            simp
          · simp [hi]
      | enq now tt ti k p => simpa [claimSuccesses] using hrest
      | complete now i => simpa [claimSuccesses] using hrest
      | fail now i e => simpa [claimSuccesses] using hrest
      | reset now a => simp [QOp.isReset] at hop

lemma wf_updateWhere (p : QTask → Bool) (f : QTask → QTask) (s : QueueState)
    (hf : ∀ r, (f r).id = r.id) (h : s.WF) : (updateWhere p f s).2.WF := by
  rcases h with ⟨hnd, hb⟩
  constructor
  · have : ((updateWhere p f s).2.rows.map QTask.id) = s.rows.map QTask.id := by
      simp only [updateWhere, List.map_map]
      apply List.map_congr_left
      intro r _
      by_cases hp : p r = true
      · simp [hp, hf]
      · simp [hp]
    rw [this]; exact hnd
  · intro r' hr'
    simp only [updateWhere, List.mem_map] at hr'
    rcases hr' with ⟨r, hr, hEq⟩
    have hid : r'.id = r.id := by
      by_cases hp : p r = true
      · rw [if_pos hp] at hEq; rw [← hEq]; exact hf r
      · rw [if_neg hp] at hEq; rw [← hEq]
    rw [nextId_updateWhere, hid]
    exact hb r hr

lemma wf_applyOp (op : QOp) (s : QueueState) (h : s.WF) : (applyOp op s).WF := by
  cases op with
  | enq now tt ti k p =>
      simp only [applyOp]
      unfold enqueue
      cases hfind : s.rows.find? (tripleMatches tt ti k) with
      | some existing => exact h
      | none =>
          rcases h with ⟨hnd, hb⟩
          constructor
          · simp only [List.map_append, List.map_cons, List.map_nil]
            rw [List.nodup_append]
            refine ⟨hnd, List.nodup_singleton _, ?_⟩
            intro a ha hb'
            simp only [List.mem_singleton] at hb'
            subst hb'
            rcases List.mem_map.mp ha with ⟨r, hr, hid⟩
            have := hb r hr
            omega
          · intro r hr
            simp only [List.mem_append, List.mem_singleton] at hr
            rcases hr with hr | hr
            · have := hb r hr; simp only; omega
            · subst hr; simp
  | claim now i => exact wf_updateWhere _ _ s (fun r => rfl) h
  | complete now i => exact wf_updateWhere _ _ s (fun r => rfl) h
  | fail now i e => exact wf_updateWhere _ _ s (fun r => rfl) h
  | reset now a =>
      simp only [applyOp]
      unfold reset_stale_tasks
      cases resetStaleCutoff now a with
      | none => exact h
      | some c => exact wf_updateWhere _ _ s (fun r => rfl) h

lemma claimSuccesses_le_one (tid : Nat) (ops : List QOp) (s : QueueState)
    (hwf : s.WF) (hnr : ∀ op ∈ ops, op.isReset = false) :
    claimSuccesses tid ops s ≤ 1 := by
  induction ops generalizing s with
  | nil => simp [claimSuccesses]
  | cons op ops ih =>
      have hop : op.isReset = false := hnr op (List.mem_cons_self op ops)
      have hnr' : ∀ o ∈ ops, o.isReset = false :=
        fun o ho => hnr o (List.mem_cons_of_mem op ho)
      have hwf' : (applyOp op s).WF := wf_applyOp op s hwf
      cases op with
      | claim now i =>
          by_cases hsucc : (i == tid && (claim_task now i s).1) = true
          · rcases Bool.and_eq_true_iff.mp hsucc with ⟨hi', hcl⟩
            have hi : i = tid := by simpa using hi'
            subst hi
            rcases (claim_task_true_iff now i s).mp hcl with ⟨r, hr, hid, _⟩
            have hlt : i < s.nextId := hid ▸ hwf.2 r hr
            have hinv : ClaimedInv i (applyOp (QOp.claim now i) s) := by
              refine ⟨noPending_after_claim now i s, ?_⟩
              simpa [applyOp, claim_task] using hlt
            simp only [claimSuccesses, hsucc, if_true,
              claimSuccesses_eq_zero i ops _ hnr' hinv]
            omega
          · rw [Bool.not_eq_true] at hsucc
            simp only [claimSuccesses, hsucc, Bool.false_eq_true, if_false,
              Nat.zero_add]
            exact ih (applyOp (QOp.claim now i) s) hwf' hnr'
      | enq now tt ti k p =>
          simpa [claimSuccesses] using ih (applyOp (QOp.enq now tt ti k p) s) hwf' hnr'
      | complete now i =>
          simpa [claimSuccesses] using ih (applyOp (QOp.complete now i) s) hwf' hnr'
      | fail now i e =>
          simpa [claimSuccesses] using ih (applyOp (QOp.fail now i e) s) hwf' hnr'
      | reset now a => simp [QOp.isReset] at hop

/-- C1 (amended): a claim(id) call succeeds exactly when a row with that id has
status pending at that moment; the successful claim sets status to processing,
sets started_at to now, increments attempts by one, and touches no other row;
and in any history of queue operations that contains no reset_stale, at most
one claim(id) call returns true.  The original across-the-ENTIRE-history
at-most-once claim fails once reset_stale is in the operation set. -/
theorem claim_task_spec (now : Int) (tid : Nat) (s : QueueState) (ops : List QOp)
    (hwf : s.WF) (hnr : ∀ op ∈ ops, op.isReset = false) :
    ((claim_task now tid s).1 = true ↔
        ∃ r ∈ s.rows, r.id = tid ∧ r.status = "pending") ∧
    ((claim_task now tid s).2.rows = s.rows.map (fun r =>
        if r.id = tid ∧ r.status = "pending" then
          { r with status := "processing", started_at := some now,
                   attempts := r.attempts + 1 }
        else r)) ∧
    claimSuccesses tid ops s ≤ 1 := by
  refine ⟨claim_task_true_iff now tid s, ?_, claimSuccesses_le_one tid ops s hwf hnr⟩
  simp only [claim_task, updateWhere]
  apply List.map_congr_left
  intro r _
  by_cases h1 : r.id = tid <;> by_cases h2 : r.status = "pending" <;>
    simp [h1, h2]

def c1init : QueueState := { rows := [], nextId := 0 }

def c1ops : List QOp :=
  [QOp.enq 0 "idea" "x" "alias_detection" 2, QOp.claim 5 0,
   QOp.reset 45 30, QOp.claim 46 0]

/-- C1 counterexample: with reset_stale in the history, claim(0) returns true
twice: the task is enqueued at minute 0, claimed at minute 5, reset at minute
45 (cutoff = 15, started_at = 5 < 15), and claimed again at minute 46.  So a
claim(id) can return true more than once across a history. -/
theorem claim_twice_counterexample :
    claimSuccesses 0 c1ops c1init = 2 ∧ ¬ claimSuccesses 0 c1ops c1init ≤ 1 := by
  decide

def w1row : QTask :=
  { id := 0, target_type := "idea", target_id := "y", task_type := "intent_keywords",
    priority := 2, status := "pending", created_at := 0, started_at := none,
    completed_at := none, attempts := 0, error := none }

def w1state : QueueState := { rows := [w1row], nextId := 1 }

def w1ops : List QOp := [QOp.claim 1 0, QOp.claim 2 0]

theorem claim_task_spec_witness :
    ((claim_task 3 0 w1state).1 = true ↔
        ∃ r ∈ w1state.rows, r.id = 0 ∧ r.status = "pending") ∧
    ((claim_task 3 0 w1state).2.rows = w1state.rows.map (fun r =>
        if r.id = 0 ∧ r.status = "pending" then
          { r with status := "processing", started_at := some 3,
                   attempts := r.attempts + 1 }
        else r)) ∧
    claimSuccesses 0 w1ops w1state ≤ 1 :=
  claim_task_spec 3 0 w1state w1ops (by decide) (by decide)

def c2row : QTask :=
  { id := 0, target_type := "idea", target_id := "x", task_type := "alias_detection",
    priority := 2, status := "processing", created_at := 0, started_at := some 0,
    completed_at := none, attempts := 1, error := none }

def c2state : QueueState := { rows := [c2row], nextId := 1 }

/-- C2 (code bug): at now = 610 minutes since epoch (minute 10 of the hour)
with max_age 30, the processing row that started 610 minutes earlier is far
older than now - max_age, yet reset_stale_tasks resets nothing and returns 0:
cutoff.replace(minute=10-30) raises ValueError, swallowed by the except
branch.  The same call at now = 640 (minute 40 of the hour) resets the row,
showing the intent the buggy arithmetic misses. -/
theorem reset_stale_tasks_minute_bug :
    reset_stale_tasks 610 30 c2state = (0, c2state) ∧
    c2row.status = "processing" ∧ c2row.started_at = some 0 ∧
    (0 : Int) < 610 - 30 ∧
    reset_stale_tasks 640 30 c2state =
      (1, { rows := [{ c2row with status := "pending", started_at := none }],
            nextId := 1 }) := by
  decide

/-- C5: enqueue is idempotent per (target_type, target_id, task_type) triple.
A second enqueue of the same triple returns exactly the result of the first
and changes nothing; whenever a row for the triple already exists — whatever
its status, including complete or failed — enqueue returns that row's id and
leaves the whole table unchanged (so a completed task is never reset); and
the number of rows for the triple after an enqueue is the old count, or one
if there was none. -/
theorem enqueue_idempotent (now1 now2 : Int) (tt ti k : String) (p1 p2 : Int)
    (s : QueueState) :
    (enqueue now2 tt ti k p2 (enqueue now1 tt ti k p1 s).2 =
      ((enqueue now1 tt ti k p1 s).1, (enqueue now1 tt ti k p1 s).2)) ∧
    (∀ r0, s.rows.find? (tripleMatches tt ti k) = some r0 →
      enqueue now1 tt ti k p1 s = (some r0.id, s)) ∧
    ((enqueue now1 tt ti k p1 s).2.rows.countP (tripleMatches tt ti k) =
      if s.rows.any (tripleMatches tt ti k) then
        s.rows.countP (tripleMatches tt ti k) else 1) := by
  cases hfind : s.rows.find? (tripleMatches tt ti k) with
  | some r =>
      have hmem : r ∈ s.rows := List.mem_of_find?_eq_some hfind
      have hpr : tripleMatches tt ti k r = true := List.find?_some hfind
      have hany : s.rows.any (tripleMatches tt ti k) = true :=
        List.any_eq_true.mpr ⟨r, hmem, hpr⟩
      refine ⟨?_, ?_, ?_⟩
      · simp [enqueue, hfind]
      · intro r0 h0
        cases h0
        simp [enqueue, hfind]
      · simp [enqueue, hfind, hany]
  | none =>
      have hall : ∀ r ∈ s.rows, ¬ tripleMatches tt ti k r = true :=
        fun r hr => by simpa using List.find?_eq_none.mp hfind r hr
      have hnew : tripleMatches tt ti k
          { id := s.nextId, target_type := tt, target_id := ti, task_type := k,
            priority := p1, status := "pending", created_at := now1,
            started_at := none, completed_at := none, attempts := 0,
            error := none } = true := by
        simp [tripleMatches]
      have hcount0 : s.rows.countP (tripleMatches tt ti k) = 0 :=
        List.countP_eq_zero.mpr hall
      have hany : s.rows.any (tripleMatches tt ti k) = false :=
        List.any_eq_false.mpr hall
      refine ⟨?_, ?_, ?_⟩
      · simp only [enqueue, hfind]
        rw [List.find?_append, hfind]
        simp [hnew]
      · intro r0 h0
        cases h0
      · simp only [enqueue, hfind]
        rw [List.countP_append, hcount0, hany]
        simp [List.countP_cons, hnew]

def c5row : QTask :=
  { id := 7, target_type := "idea", target_id := "x", task_type := "alias_detection",
    priority := 2, status := "complete", created_at := 0, started_at := none,
    completed_at := some 9, attempts := 1, error := none }

def c5state : QueueState := { rows := [c5row], nextId := 8 }

theorem enqueue_idempotent_witness :
    enqueue 3 "idea" "x" "alias_detection" 2 c5state = (some 7, c5state) :=
  (enqueue_idempotent 3 0 "idea" "x" "alias_detection" 2 2 c5state).2.1 c5row
    (by decide)

/-- Configuration defaults relevant here (src/config.py lines 140-149). -/
structure Settings where
  idea_boundary_silence_ms : Int
  idea_max_duration_sec : Int
  response_mapping_time_threshold_ms : Int
deriving DecidableEq, Repr

def defaultSettings : Settings :=
  { idea_boundary_silence_ms := 800, idea_max_duration_sec := 60,
    response_mapping_time_threshold_ms := 5000 }

/-- Persisted utterance row (utterance_repo.py, models/database.py); timestamps
in milliseconds, sequence_num allocated per session as max + 1. -/
structure Utt where
  id : Nat
  session_id : String
  user_id : Int
  text : String
  started_at : Int
  ended_at : Int
  sequence_num : Nat
deriving DecidableEq, Repr, Inhabited

/-- The enrichment_status map of an idea payload (qdrant_schema.py 86-91). -/
structure EnrichmentStatus where
  alias_detection : String
  intent_keywords : String
  response_mapping : String
  prosody_interpretation : String
deriving DecidableEq, Repr

def pendingStatus : EnrichmentStatus :=
  { alias_detection := "pending", intent_keywords := "pending",
    response_mapping := "pending", prosody_interpretation := "pending" }

/-- The prosody_interpretation sub-dict, as read by the response-mapping
handler: only its is_complete key is consulted, and the key may be absent. -/
structure ProsodyInterp where
  is_complete : Option Bool
deriving DecidableEq, Repr

/-- Idea payload (qdrant_schema.py create_idea_payload, lines 43-92). -/
structure IdeaPayload where
  utterance_ids : List Nat
  session_id : String
  user_id : Int
  text : String
  started_at : Int
  ended_at : Int
  intent : Option String
  keywords : Option (List String)
  is_response_to_idea_id : Option String
  response_latency_ms : Option Int
  prosody_interpretation : Option ProsodyInterp
  enrichment_status : EnrichmentStatus
deriving DecidableEq, Repr

/-- create_idea_payload: core fields from the arguments, enrichment fields
null, enrichment_status all pending. -/
def create_idea_payload (utterance_ids : List Nat) (session_id : String)
    (user_id : Int) (text : String) (started_at ended_at : Int) : IdeaPayload :=
  { utterance_ids := utterance_ids, session_id := session_id,
    user_id := user_id, text := text, started_at := started_at,
    ended_at := ended_at, intent := none, keywords := none,
    is_response_to_idea_id := none, response_latency_ms := none,
    prosody_interpretation := none, enrichment_status := pendingStatus }

/-- An idea point in the vector store; the uuid4 point id is modelled by a
deterministic counter, rendered with toString where a string id is needed. -/
structure IdeaPoint where
  id : Nat
  payload : IdeaPayload
deriving DecidableEq, Repr

/-- Boundary-detector state for one session (boundary_detector.py): the
insertion-ordered dict user_id -> pending FIFO, plus the idea store and the
enrichment queue the detector writes to. -/
structure BDState where
  pending : List (Int × List Utt)
  ideas : List IdeaPoint
  queue : QueueState
  nextIdeaId : Nat
deriving DecidableEq, Repr

def lookupPending (user : Int) (m : List (Int × List Utt)) : Option (List Utt) :=
  (m.find? (fun e => e.1 == user)).map Prod.snd

/-- Python dict assignment: overwrite the entry if the key exists, else append
(insertion order preserved). -/
def setPending (user : Int) (v : List Utt) : List (Int × List Utt) → List (Int × List Utt)
  | [] => [(user, v)]
  | e :: rest => if e.1 == user then (user, v) :: rest else e :: setPending user v rest

/-- _is_boundary (boundary_detector.py lines 89-127), called after the new
utterance u has been appended; durations compared in milliseconds
(total_seconds() >= idea_max_duration_sec iff ms >= sec * 1000). -/
def is_boundary (cfg : Settings) (pending : List Utt) (u : Utt) : Bool :=
  match pending with
  | [] => false
  | p0 :: _ =>
      if u.ended_at - p0.started_at ≥ cfg.idea_max_duration_sec * 1000 then true
      else if u.ended_at - p0.started_at ≥ 15 * 1000 ∧ 2 ≤ pending.length then true
      else if 3 ≤ pending.length then true
      else false

/-- _create_idea (boundary_detector.py lines 163-235): join the texts, span
from first to last pending utterance, write the idea point (embedding and
upsert modelled as succeeding), enqueue the four enrichment tasks at
priority 2, clear the FIFO.  now is the queue clock used for created_at. -/
def create_idea (now : Int) (session_id : String) (user : Int) (st : BDState) : BDState :=
  match lookupPending user st.pending with
  | none => st
  | some [] => st
  | some (p0 :: rest) =>
      let text := String.intercalate " " ((p0 :: rest).map Utt.text)
      let utterance_ids := (p0 :: rest).map Utt.id
      let started_at := p0.started_at
      let ended_at := ((p0 :: rest).getLast (List.cons_ne_nil p0 rest)).ended_at
      let payload := create_idea_payload utterance_ids session_id user text
        started_at ended_at
      let ideaId := st.nextIdeaId
      let q1 := (enqueue now "idea" (toString ideaId) "alias_detection" 2 st.queue).2
      let q2 := (enqueue now "idea" (toString ideaId) "prosody_interpretation" 2 q1).2
      let q3 := (enqueue now "idea" (toString ideaId) "response_mapping" 2 q2).2
      let q4 := (enqueue now "idea" (toString ideaId) "intent_keywords" 2 q3).2
      { pending := setPending user [] st.pending,
        ideas := st.ideas ++ [{ id := ideaId, payload := payload }],
        queue := q4,
        nextIdeaId := st.nextIdeaId + 1 }

/-- on_utterance_created (boundary_detector.py lines 37-68): append the
utterance to its speaker's FIFO, then create an idea if _is_boundary holds. -/
def on_utterance_created (cfg : Settings) (now : Int) (u : Utt) (st : BDState) : BDState :=
  let fifo1 := ((lookupPending u.user_id st.pending).getD []) ++ [u]
  let st1 : BDState := { st with pending := setPending u.user_id fifo1 st.pending }
  if is_boundary cfg fifo1 u then create_idea now u.session_id u.user_id st1 else st1

/-- Loop body of check_speaker_change over the snapshot of dict keys, reading
the live dict. -/
def csc_go (cfg : Settings) (now : Int) (sid : String) (new_user : Int) (t : Int) :
    List Int → BDState → BDState
  | [], acc => acc
  | uid :: ks, acc =>
      let acc1 :=
        if uid == new_user then acc
        else
          match lookupPending uid acc.pending with
          | none => acc
          | some [] => acc
          | some (p0 :: rest) =>
              if t - ((p0 :: rest).getLast (List.cons_ne_nil p0 rest)).ended_at ≥
                  cfg.idea_boundary_silence_ms
              then create_idea now sid uid acc else acc
      csc_go cfg now sid new_user t ks acc1

/-- check_speaker_change (boundary_detector.py lines 129-161): for every other
speaker with pending utterances, fire a boundary when the silence gap before
the new utterance reaches idea_boundary_silence_ms. -/
def check_speaker_change (cfg : Settings) (now : Int) (sid : String)
    (new_user : Int) (t : Int) (st : BDState) : BDState :=
  csc_go cfg now sid new_user t (st.pending.map Prod.fst) st

/-- Incoming transcription result, before sequence allocation. -/
structure UttEvent where
  id : Nat
  session_id : String
  user_id : Int
  text : String
  started_at : Int
  ended_at : Int
deriving DecidableEq, Repr

structure PipelineState where
  bd : BDState
  nextSeq : Nat
deriving DecidableEq, Repr

/-- create_utterance (utterance_repo.py lines 25-103): allocate the session
sequence_num as max + 1, then schedule check_speaker_change with the new
utterance's started_at followed by on_utterance_created. -/
def create_utterance (cfg : Settings) (now : Int) (e : UttEvent)
    (ps : PipelineState) : PipelineState :=
  let u : Utt := { id := e.id, session_id := e.session_id, user_id := e.user_id,
                   text := e.text, started_at := e.started_at,
                   ended_at := e.ended_at, sequence_num := ps.nextSeq }
  let bd1 := check_speaker_change cfg now e.session_id e.user_id e.started_at ps.bd
  { bd := on_utterance_created cfg now u bd1, nextSeq := ps.nextSeq + 1 }

def run_utterances (cfg : Settings) (now : Int) (es : List UttEvent)
    (ps : PipelineState) : PipelineState :=
  es.foldl (fun acc e => create_utterance cfg now e acc) ps

/-- Replay of the sequence allocation: the utterances a trace persists. -/
def allocUtts : List UttEvent → Nat → List Utt
  | [], _ => []
  | e :: es, n =>
      { id := e.id, session_id := e.session_id, user_id := e.user_id,
        text := e.text, started_at := e.started_at, ended_at := e.ended_at,
        sequence_num := n } :: allocUtts es (n + 1)

def contiguousB : List Nat → Bool
  | [] => true
  | [_] => true
  | a :: b :: r => (b == a + 1) && contiguousB (b :: r)

/-- Consecutive integers, the spec's notion of contiguity in sequence_num. -/
def Contiguous (l : List Nat) : Prop := contiguousB l = true

instance (l : List Nat) : Decidable (Contiguous l) :=
  inferInstanceAs (Decidable (contiguousB l = true))

/-- Sequence number of the persisted utterance with a given id. -/
def seqOf (us : List Utt) (i : Nat) : Nat :=
  ((us.find? (fun x => x.id == i)).map Utt.sequence_num).getD 0

lemma lookupPending_setPending_self (u : Int) (v : List Utt)
    (m : List (Int × List Utt)) :
    lookupPending u (setPending u v m) = some v := by
  induction m with
  | nil => simp [setPending, lookupPending, List.find?]
  | cons e rest ih =>
      by_cases h : (e.1 == u) = true
      · simp [setPending, h, lookupPending, List.find?]
      · simp only [setPending, h, Bool.false_eq_true, if_false]
        simpa [lookupPending, List.find?, h] using ih

lemma lookupPending_setPending_ne (u w : Int) (v : List Utt)
    (m : List (Int × List Utt)) (h : w ≠ u) :
    lookupPending w (setPending u v m) = lookupPending w m := by
  have hwu : (u == w) = false := by simp [Ne.symm h]
  induction m with
  | nil => simp [setPending, lookupPending, List.find?, hwu]
  | cons e rest ih =>
      by_cases he : (e.1 == u) = true
      · have he' : (e.1 == w) = false := by
          have : e.1 = u := by simpa using he
          simp [this, Ne.symm h]
        simp [setPending, he, lookupPending, List.find?, hwu, he']
      · simp only [setPending, he, Bool.false_eq_true, if_false]
        by_cases hw : (e.1 == w) = true
        · simp [lookupPending, List.find?, hw]
        · simpa [lookupPending, List.find?, hw] using ih

lemma keys_setPending_of_mem (u : Int) (v : List Utt)
    (m : List (Int × List Utt)) (h : lookupPending u m ≠ none) :
    (setPending u v m).map Prod.fst = m.map Prod.fst := by
  induction m with
  | nil => simp [lookupPending, List.find?] at h
  | cons e rest ih =>
      by_cases he : (e.1 == u) = true
      · have : e.1 = u := by simpa using he
        simp [setPending, he, this]
      · simp only [setPending, he, Bool.false_eq_true, if_false, List.map_cons]
        rw [ih]
        simp only [lookupPending, List.find?, he] at h
        exact h

/-- In a chronological FIFO the first utterance starts no later than any
other. -/
lemma chron_head_min (l : List Utt)
    (hch : l.Chain' (fun a b => a.ended_at ≤ b.started_at))
    (hse : ∀ x ∈ l, x.started_at ≤ x.ended_at) :
    ∀ x ∈ l, l.headI.started_at ≤ x.started_at := by
  induction l with
  | nil => intro x hx; cases hx
  | cons a rest ih =>
      intro x hx
      rcases List.mem_cons.mp hx with hx | hx
      · subst hx; exact le_refl _
      · cases rest with
        | nil => cases hx
        | cons b rest2 =>
            have hab : a.ended_at ≤ b.started_at := (List.chain'_cons.mp hch).1
            have hch2 : (b :: rest2).Chain' (fun a b => a.ended_at ≤ b.started_at) :=
              (List.chain'_cons.mp hch).2
            have hse2 : ∀ y ∈ b :: rest2, y.started_at ≤ y.ended_at :=
              fun y hy => hse y (List.mem_cons_of_mem a hy)
            have h2 : (b :: rest2).headI.started_at ≤ x.started_at :=
              ih hch2 hse2 x hx
            have h1 : a.started_at ≤ a.ended_at := hse a (by simp)
            simp only [List.headI] at h2 ⊢
            exact le_trans (le_trans h1 hab) h2

/-- In a chronological FIFO the last utterance ends no earlier than any
other. -/
lemma chron_last_max (l : List Utt) (h : l ≠ [])
    (hch : l.Chain' (fun a b => a.ended_at ≤ b.started_at))
    (hse : ∀ x ∈ l, x.started_at ≤ x.ended_at) :
    ∀ x ∈ l, x.ended_at ≤ (l.getLast h).ended_at := by
  induction l with
  | nil => cases h rfl
  | cons a rest ih =>
      intro x hx
      cases rest with
      | nil =>
          rcases List.mem_cons.mp hx with hx | hx
          · subst hx; simp
          · cases hx
      | cons b rest2 =>
          have hab : a.ended_at ≤ b.started_at := (List.chain'_cons.mp hch).1
          have hch2 : (b :: rest2).Chain' (fun a b => a.ended_at ≤ b.started_at) :=
            (List.chain'_cons.mp hch).2
          have hse2 : ∀ y ∈ b :: rest2, y.started_at ≤ y.ended_at :=
            fun y hy => hse y (List.mem_cons_of_mem a hy)
          have ihm := ih (List.cons_ne_nil b rest2) hch2 hse2
          rw [List.getLast_cons_cons]
          rcases List.mem_cons.mp hx with hx | hx
          · subst hx
            have hb : b.ended_at ≤ ((b :: rest2).getLast
                (List.cons_ne_nil b rest2)).ended_at :=
              ihm b (List.mem_cons_self b rest2)
            have hbb : b.started_at ≤ b.ended_at := hse2 b (by simp)
            exact le_trans hab (le_trans hbb hb)
          · exact ihm x hx

/-- Queue row produced by the k-th of the four enqueues in _create_idea. -/
def mkIdeaTask (st : BDState) (now : Int) (offset : Nat) (ty : String) : QTask :=
  { id := st.queue.nextId + offset, target_type := "idea",
    target_id := toString st.nextIdeaId, task_type := ty, priority := 2,
    status := "pending", created_at := now, started_at := none,
    completed_at := none, attempts := 0, error := none }

lemma enqueue_of_find_none (now : Int) (tt ti k : String) (p : Int)
    (s : QueueState) (h : s.rows.find? (tripleMatches tt ti k) = none) :
    enqueue now tt ti k p s =
      (some s.nextId,
       { rows := s.rows ++
           [{ id := s.nextId, target_type := tt, target_id := ti, task_type := k,
              priority := p, status := "pending", created_at := now,
              started_at := none, completed_at := none, attempts := 0,
              error := none }],
         nextId := s.nextId + 1 }) := by
  simp [enqueue, h]

/-- C4 (amended): when a boundary fires for a (session, speaker) whose pending
FIFO is non-empty, chronological, and holds only that speaker's utterances of
that session (the pipeline invariant), the created idea consumes the entire
FIFO in order: its utterance_ids are exactly the FIFO's utterance ids (hence
all from that single user and session, and consecutive in the speaker's own
FIFO — though NOT in general contiguous in the session-wide sequence_num, see
the counterexample); its text is the space-join of the texts; its started_at
and ended_at are the minimum started_at and maximum ended_at of the
constituents; its enrichment_status has all four entries pending; exactly the
four enrichment task rows (alias_detection, prosody_interpretation,
response_mapping, intent_keywords) are appended to the queue at priority 2
against the idea's id; and the speaker's FIFO is cleared. -/
theorem create_idea_spec
    (now : Int) (sid : String) (user : Int) (st : BDState) (fifo : List Utt)
    (hlk : lookupPending user st.pending = some fifo) (hne : fifo ≠ [])
    (hhom : ∀ x ∈ fifo, x.user_id = user ∧ x.session_id = sid)
    (hch : fifo.Chain' (fun a b => a.ended_at ≤ b.started_at))
    (hse : ∀ x ∈ fifo, x.started_at ≤ x.ended_at)
    (hq : ∀ r ∈ st.queue.rows,
      ¬ (r.target_type = "idea" ∧ r.target_id = toString st.nextIdeaId)) :
    ∃ ip : IdeaPoint,
      (create_idea now sid user st).ideas = st.ideas ++ [ip] ∧
      ip.id = st.nextIdeaId ∧
      ip.payload.utterance_ids = fifo.map Utt.id ∧
      ip.payload.user_id = user ∧
      ip.payload.session_id = sid ∧
      ip.payload.text = String.intercalate " " (fifo.map Utt.text) ∧
      (ip.payload.started_at ∈ fifo.map Utt.started_at ∧
        ∀ x ∈ fifo, ip.payload.started_at ≤ x.started_at) ∧
      (ip.payload.ended_at ∈ fifo.map Utt.ended_at ∧
        ∀ x ∈ fifo, x.ended_at ≤ ip.payload.ended_at) ∧
      ip.payload.enrichment_status = pendingStatus ∧
      (create_idea now sid user st).queue.rows =
        st.queue.rows ++
          [ mkIdeaTask st now 0 "alias_detection",
            mkIdeaTask st now 1 "prosody_interpretation",
            mkIdeaTask st now 2 "response_mapping",
            mkIdeaTask st now 3 "intent_keywords" ] ∧
      lookupPending user (create_idea now sid user st).pending = some [] := by
  cases fifo with
  | nil => exact absurd rfl hne
  | cons p0 rest =>
      have hrows : ∀ k : String,
          st.queue.rows.find? (tripleMatches "idea" (toString st.nextIdeaId) k)
            = none := by
        intro k
        apply List.find?_eq_none.mpr
        intro r hr
        have hnq := hq r hr
        simp only [tripleMatches, Bool.and_eq_true, beq_iff_eq, not_and]
        intro h1
        intro h2
        exact absurd ⟨h1.1, h1.2⟩ hnq
      have hsingle : ∀ (T : QTask) (k : String), T.task_type ≠ k →
          List.find? (tripleMatches "idea" (toString st.nextIdeaId) k) [T]
            = none := by
        intro T k hk
        simp only [List.find?, tripleMatches]
        have : (T.task_type == k) = false := by simp [hk]
        simp [this]
      refine ⟨{ id := st.nextIdeaId,
                payload := create_idea_payload ((p0 :: rest).map Utt.id) sid user
                  (String.intercalate " " ((p0 :: rest).map Utt.text))
                  p0.started_at
                  (((p0 :: rest).getLast (List.cons_ne_nil p0 rest)).ended_at) },
              ?_, rfl, rfl, rfl, rfl, rfl, ?_, ?_, rfl, ?_, ?_⟩
      · simp only [create_idea, hlk]
      · constructor
        · exact List.mem_map.mpr ⟨p0, by simp, rfl⟩
        · intro x hx
          have := chron_head_min (p0 :: rest) hch hse x hx
          simpa using this
      · constructor
        · exact List.mem_map.mpr
            ⟨(p0 :: rest).getLast (List.cons_ne_nil p0 rest),
             List.getLast_mem _, rfl⟩
        · exact chron_last_max (p0 :: rest) (List.cons_ne_nil p0 rest) hch hse
      · simp only [create_idea, hlk]
        set q1 := (enqueue now "idea" (toString st.nextIdeaId)
          "alias_detection" 2 st.queue).2 with hq1def
        set q2 := (enqueue now "idea" (toString st.nextIdeaId)
          "prosody_interpretation" 2 q1).2 with hq2def
        set q3 := (enqueue now "idea" (toString st.nextIdeaId)
          "response_mapping" 2 q2).2 with hq3def
        set q4 := (enqueue now "idea" (toString st.nextIdeaId)
          "intent_keywords" 2 q3).2 with hq4def
        have h1 := enqueue_of_find_none now "idea" (toString st.nextIdeaId)
          "alias_detection" 2 st.queue (hrows _)
        have h1r : q1.rows = st.queue.rows ++ [mkIdeaTask st now 0 "alias_detection"] := by
          rw [hq1def, h1]
          simp [mkIdeaTask]
        have h1n : q1.nextId = st.queue.nextId + 1 := by rw [hq1def, h1]
        have hf2 : q1.rows.find? (tripleMatches "idea" (toString st.nextIdeaId)
            "prosody_interpretation") = none := by
          rw [h1r, List.find?_append, hrows, Option.none_or]
          exact hsingle _ _ (by simp [mkIdeaTask])
        have h2 := enqueue_of_find_none now "idea" (toString st.nextIdeaId)
          "prosody_interpretation" 2 q1 hf2
        have h2r : q2.rows = q1.rows ++ [mkIdeaTask st now 1 "prosody_interpretation"] := by
          rw [hq2def, h2]
          simp [mkIdeaTask, h1n]
        have h2n : q2.nextId = st.queue.nextId + 2 := by
          rw [hq2def, h2]
          simp [h1n]
        have hf3 : q2.rows.find? (tripleMatches "idea" (toString st.nextIdeaId)
            "response_mapping") = none := by
          rw [h2r, h1r, List.append_assoc, List.find?_append, hrows, Option.none_or,
            List.find?_append]
          rw [hsingle _ _ (by simp [mkIdeaTask]), Option.none_or]
          exact hsingle _ _ (by simp [mkIdeaTask])
        have h3 := enqueue_of_find_none now "idea" (toString st.nextIdeaId)
          "response_mapping" 2 q2 hf3
        have h3r : q3.rows = q2.rows ++ [mkIdeaTask st now 2 "response_mapping"] := by
          rw [hq3def, h3]
          simp [mkIdeaTask, h2n]
        have h3n : q3.nextId = st.queue.nextId + 3 := by
          rw [hq3def, h3]
          simp [h2n]
        have hf4 : q3.rows.find? (tripleMatches "idea" (toString st.nextIdeaId)
            "intent_keywords") = none := by
          rw [h3r, h2r, h1r, List.append_assoc, List.append_assoc,
            List.find?_append, hrows, Option.none_or, List.find?_append]
          rw [hsingle _ _ (by simp [mkIdeaTask]), Option.none_or, List.find?_append]
          rw [hsingle _ _ (by simp [mkIdeaTask]), Option.none_or]
          exact hsingle _ _ (by simp [mkIdeaTask])
        have h4 := enqueue_of_find_none now "idea" (toString st.nextIdeaId)
          "intent_keywords" 2 q3 hf4
        have h4r : q4.rows = q3.rows ++ [mkIdeaTask st now 3 "intent_keywords"] := by
          rw [hq4def, h4]
          simp [mkIdeaTask, h3n]
        rw [h4r, h3r, h2r, h1r]
        simp [List.append_assoc]
      · simp only [create_idea, hlk]
        exact lookupPending_setPending_self user [] st.pending

def c4events : List UttEvent :=
  [ { id := 1, session_id := "s", user_id := 1, text := "a",
      started_at := 0, ended_at := 1000 },
    { id := 2, session_id := "s", user_id := 2, text := "b",
      started_at := 1200, ended_at := 2000 },
    { id := 3, session_id := "s", user_id := 1, text := "c",
      started_at := 2200, ended_at := 3000 },
    { id := 4, session_id := "s", user_id := 1, text := "d",
      started_at := 3200, ended_at := 4000 } ]

def bd0 : BDState :=
  { pending := [], ideas := [], queue := { rows := [], nextId := 0 },
    nextIdeaId := 0 }

def ps0 : PipelineState := { bd := bd0, nextSeq := 1 }

/-- C4 counterexample: sequence_num is session-scoped, so with interleaved
speakers the idea of speaker 1 is built from utterances with sequence numbers
1, 3 and 4 — not contiguous.  Speaker 1 utters at 0-1000; speaker 2 at
1200-2000 (gap 200 ms < 800, no boundary); speaker 1 again at 2200-3000 and
3200-4000; the last arrival fires the pending-count boundary for speaker 1
(and the silence boundary for speaker 2), giving speaker 1 an idea over
utterances 1, 3, 4 of the same session with sequence numbers 1, 3, 4. -/
theorem idea_seq_not_contiguous_counterexample :
    ((run_utterances defaultSettings 0 c4events ps0).bd.ideas.map
      (fun ip => ip.payload.utterance_ids)) = [[2], [1, 3, 4]] ∧
    ((run_utterances defaultSettings 0 c4events ps0).bd.ideas.map
      (fun ip => (ip.payload.session_id, ip.payload.user_id))) =
        [("s", 2), ("s", 1)] ∧
    [1, 3, 4].map (seqOf (allocUtts c4events 1)) = [1, 3, 4] ∧
    ¬ Contiguous [1, 3, 4] := by
  decide

def w4utts : List Utt :=
  [ { id := 10, session_id := "s", user_id := 1, text := "hi",
      started_at := 0, ended_at := 900, sequence_num := 1 },
    { id := 11, session_id := "s", user_id := 1, text := "there",
      started_at := 1000, ended_at := 2000, sequence_num := 2 } ]

def w4state : BDState :=
  { pending := [(1, w4utts)], ideas := [],
    queue := { rows := [], nextId := 0 }, nextIdeaId := 0 }

theorem create_idea_spec_witness :
    ∃ ip : IdeaPoint,
      (create_idea 7 "s" 1 w4state).ideas = w4state.ideas ++ [ip] ∧
      ip.id = w4state.nextIdeaId ∧
      ip.payload.utterance_ids = w4utts.map Utt.id ∧
      ip.payload.user_id = 1 ∧
      ip.payload.session_id = "s" ∧
      ip.payload.text = String.intercalate " " (w4utts.map Utt.text) ∧
      (ip.payload.started_at ∈ w4utts.map Utt.started_at ∧
        ∀ x ∈ w4utts, ip.payload.started_at ≤ x.started_at) ∧
      (ip.payload.ended_at ∈ w4utts.map Utt.ended_at ∧
        ∀ x ∈ w4utts, x.ended_at ≤ ip.payload.ended_at) ∧
      ip.payload.enrichment_status = pendingStatus ∧
      (create_idea 7 "s" 1 w4state).queue.rows =
        w4state.queue.rows ++
          [ mkIdeaTask w4state 7 0 "alias_detection",
            mkIdeaTask w4state 7 1 "prosody_interpretation",
            mkIdeaTask w4state 7 2 "response_mapping",
            mkIdeaTask w4state 7 3 "intent_keywords" ] ∧
      lookupPending 1 (create_idea 7 "s" 1 w4state).pending = some [] :=
  create_idea_spec 7 "s" 1 w4state w4utts (by decide) (by decide) (by decide)
    (by norm_num [w4utts, List.chain'_cons]) (by decide) (by decide)

lemma is_boundary_iff (u : Utt) (l : List Utt) (h : l ≠ []) :
    is_boundary defaultSettings l u = true ↔
      (u.ended_at - l.headI.started_at ≥ 60 * 1000 ∨
       (u.ended_at - l.headI.started_at ≥ 15 * 1000 ∧ 2 ≤ l.length) ∨
       3 ≤ l.length) := by
  cases l with
  | nil => cases h rfl
  | cons p0 r =>
      show (if u.ended_at - p0.started_at ≥
              defaultSettings.idea_max_duration_sec * 1000 then true
            else if u.ended_at - p0.started_at ≥ 15 * 1000 ∧
              2 ≤ (p0 :: r).length then true
            else if 3 ≤ (p0 :: r).length then true
            else false) = true ↔ _
      have hsec : defaultSettings.idea_max_duration_sec = 60 := rfl
      rw [hsec]
      constructor
      · intro hb
        split_ifs at hb with h1 h2 h3
        · exact Or.inl h1
        · exact Or.inr (Or.inl h2)
        · exact Or.inr (Or.inr h3)
      · intro hc
        split_ifs with h1 h2 h3 <;> try rfl
        rcases hc with hc | hc | hc
        · exact absurd hc h1
        · exact absurd hc h2
        · exact absurd hc h3

lemma lookup_mem_keys (v : Int) (m : List (Int × List Utt)) (f : List Utt)
    (h : lookupPending v m = some f) : v ∈ m.map Prod.fst := by
  unfold lookupPending at h
  cases hfind : m.find? (fun e => e.1 == v) with
  | none => rw [hfind] at h; cases h
  | some e =>
      have hm : e ∈ m := List.mem_of_find?_eq_some hfind
      have hp := List.find?_some hfind
      have he : e.1 = v := by simpa using hp
      exact he ▸ List.mem_map.mpr ⟨e, hm, rfl⟩

/-- Effect of _create_idea, in the form used for the speaker-change fold:
other speakers' FIFOs are untouched, the idea list only grows, any new idea
belongs to the fired speaker and carries a fresh id, and id freshness is
preserved. -/
lemma create_idea_generic (now : Int) (sid : String) (uid : Int) (st : BDState) :
    (∀ w, w ≠ uid →
      lookupPending w (create_idea now sid uid st).pending =
        lookupPending w st.pending) ∧
    (∀ ip ∈ st.ideas, ip ∈ (create_idea now sid uid st).ideas) ∧
    (∀ ip ∈ (create_idea now sid uid st).ideas,
      ip ∈ st.ideas ∨ (ip.payload.user_id = uid ∧ st.nextIdeaId ≤ ip.id)) ∧
    st.nextIdeaId ≤ (create_idea now sid uid st).nextIdeaId ∧
    ((∀ ip ∈ st.ideas, ip.id < st.nextIdeaId) →
      ∀ ip ∈ (create_idea now sid uid st).ideas,
        ip.id < (create_idea now sid uid st).nextIdeaId) := by
  cases hlk : lookupPending uid st.pending with
  | none =>
      have hred : create_idea now sid uid st = st := by
        unfold create_idea
        rw [hlk]
      rw [hred]
      exact ⟨fun w _ => rfl, fun ip h => h, fun ip h => Or.inl h, le_refl _,
        fun hb => hb⟩
  | some fifo =>
      cases fifo with
      | nil =>
          have hred : create_idea now sid uid st = st := by
            unfold create_idea
            rw [hlk]
          rw [hred]
          exact ⟨fun w _ => rfl, fun ip h => h, fun ip h => Or.inl h, le_refl _,
            fun hb => hb⟩
      | cons p0 rest =>
          refine ⟨?_, ?_, ?_, ?_, ?_⟩
          · intro w hw
            have hp : (create_idea now sid uid st).pending =
                setPending uid [] st.pending := by
              simp only [create_idea, hlk]
            rw [hp]
            exact lookupPending_setPending_ne uid w [] st.pending hw
          · intro ip h
            simp only [create_idea, hlk]
            exact List.mem_append_left _ h
          · intro ip hip
            simp only [create_idea, hlk] at hip
            rcases List.mem_append.mp hip with hip | hip
            · exact Or.inl hip
            · rcases List.mem_singleton.mp hip with rfl
              exact Or.inr ⟨rfl, le_refl _⟩
          · simp only [create_idea, hlk]
            exact Nat.le_succ _
          · intro hb ip hip
            simp only [create_idea, hlk] at hip ⊢
            rcases List.mem_append.mp hip with hip | hip
            · exact Nat.lt_succ_of_lt (hb ip hip)
            · rcases List.mem_singleton.mp hip with rfl
              exact Nat.lt_succ_self _

/-- One step of the check_speaker_change loop. -/
def csc_step (cfg : Settings) (now : Int) (sid : String) (new_user : Int)
    (t : Int) (uid : Int) (acc : BDState) : BDState :=
  if uid == new_user then acc
  else
    match lookupPending uid acc.pending with
    | none => acc
    | some [] => acc
    | some (p0 :: rest) =>
        if t - ((p0 :: rest).getLast (List.cons_ne_nil p0 rest)).ended_at ≥
            cfg.idea_boundary_silence_ms
        then create_idea now sid uid acc else acc

lemma csc_go_eq_steps (cfg : Settings) (now : Int) (sid : String)
    (new_user : Int) (t : Int) (ks : List Int) (acc : BDState) :
    csc_go cfg now sid new_user t ks acc =
      ks.foldl (fun a uid => csc_step cfg now sid new_user t uid a) acc := by
  induction ks generalizing acc with
  | nil => rfl
  | cons k ks ih =>
      simp only [csc_go, List.foldl_cons, csc_step]
      exact ih _

lemma csc_step_generic (cfg : Settings) (now : Int) (sid : String)
    (new_user : Int) (t : Int) (uid v : Int) (acc : BDState) (hv : v ≠ uid) :
    (lookupPending v (csc_step cfg now sid new_user t uid acc).pending =
      lookupPending v acc.pending) ∧
    (∀ ip ∈ acc.ideas, ip ∈ (csc_step cfg now sid new_user t uid acc).ideas) ∧
    (∀ ip ∈ (csc_step cfg now sid new_user t uid acc).ideas,
      ip ∈ acc.ideas ∨ (ip.payload.user_id = uid ∧ acc.nextIdeaId ≤ ip.id)) ∧
    acc.nextIdeaId ≤ (csc_step cfg now sid new_user t uid acc).nextIdeaId ∧
    ((∀ ip ∈ acc.ideas, ip.id < acc.nextIdeaId) →
      ∀ ip ∈ (csc_step cfg now sid new_user t uid acc).ideas,
        ip.id < (csc_step cfg now sid new_user t uid acc).nextIdeaId) := by
  by_cases h1 : (uid == new_user) = true
  · have hred : csc_step cfg now sid new_user t uid acc = acc := by
      unfold csc_step
      rw [if_pos h1]
    rw [hred]
    exact ⟨rfl, fun ip h => h, fun ip h => Or.inl h, le_refl _, fun hb => hb⟩
  · cases hlk : lookupPending uid acc.pending with
    | none =>
        have hred : csc_step cfg now sid new_user t uid acc = acc := by
          unfold csc_step
          rw [if_neg h1, hlk]
        rw [hred]
        exact ⟨rfl, fun ip h => h, fun ip h => Or.inl h, le_refl _, fun hb => hb⟩
    | some fifo =>
        cases fifo with
        | nil =>
            have hred : csc_step cfg now sid new_user t uid acc = acc := by
              unfold csc_step
              rw [if_neg h1, hlk]
            rw [hred]
            exact ⟨rfl, fun ip h => h, fun ip h => Or.inl h, le_refl _,
              fun hb => hb⟩
        | cons p0 rest =>
            by_cases h2 : t - ((p0 :: rest).getLast
                (List.cons_ne_nil p0 rest)).ended_at ≥
                cfg.idea_boundary_silence_ms
            · have hred : csc_step cfg now sid new_user t uid acc =
                  create_idea now sid uid acc := by
                unfold csc_step
                rw [if_neg h1, hlk]
                exact if_pos h2
              rw [hred]
              have hg := create_idea_generic now sid uid acc
              exact ⟨hg.1 v hv, hg.2.1, hg.2.2.1, hg.2.2.2.1, hg.2.2.2.2⟩
            · have hred : csc_step cfg now sid new_user t uid acc = acc := by
                unfold csc_step
                rw [if_neg h1, hlk]
                exact if_neg h2
              rw [hred]
              exact ⟨rfl, fun ip h => h, fun ip h => Or.inl h, le_refl _,
                fun hb => hb⟩

lemma csc_go_cons (cfg : Settings) (now : Int) (sid : String) (nu : Int)
    (t : Int) (uid : Int) (ks : List Int) (acc : BDState) :
    csc_go cfg now sid nu t (uid :: ks) acc =
      csc_go cfg now sid nu t ks (csc_step cfg now sid nu t uid acc) := rfl

lemma csc_go_append (cfg : Settings) (now : Int) (sid : String) (nu : Int)
    (t : Int) (a b : List Int) (acc : BDState) :
    csc_go cfg now sid nu t (a ++ b) acc =
      csc_go cfg now sid nu t b (csc_go cfg now sid nu t a acc) := by
  rw [csc_go_eq_steps, csc_go_eq_steps, csc_go_eq_steps, List.foldl_append]

lemma csc_go_preserve (cfg : Settings) (now : Int) (sid : String) (nu : Int)
    (t : Int) (ks : List Int) (acc : BDState) (v : Int) (hv : v ∉ ks) :
    (lookupPending v (csc_go cfg now sid nu t ks acc).pending =
      lookupPending v acc.pending) ∧
    (∀ ip ∈ acc.ideas, ip ∈ (csc_go cfg now sid nu t ks acc).ideas) ∧
    (∀ ip ∈ (csc_go cfg now sid nu t ks acc).ideas,
      ip ∈ acc.ideas ∨ ip.payload.user_id ≠ v) ∧
    acc.nextIdeaId ≤ (csc_go cfg now sid nu t ks acc).nextIdeaId ∧
    ((∀ ip ∈ acc.ideas, ip.id < acc.nextIdeaId) →
      ∀ ip ∈ (csc_go cfg now sid nu t ks acc).ideas,
        ip.id < (csc_go cfg now sid nu t ks acc).nextIdeaId) := by
  induction ks generalizing acc with
  | nil =>
      exact ⟨rfl, fun ip h => h, fun ip h => Or.inl h, le_refl _, fun hb => hb⟩
  | cons uid ks ih =>
      have hvu : v ≠ uid := fun h => hv (h ▸ List.mem_cons_self uid ks)
      have hvk : v ∉ ks := fun h => hv (List.mem_cons_of_mem uid h)
      have hs := csc_step_generic cfg now sid nu t uid v acc hvu
      have hi := ih (csc_step cfg now sid nu t uid acc) hvk
      rw [csc_go_cons]
      refine ⟨?_, ?_, ?_, ?_, ?_⟩
      · rw [hi.1, hs.1]
      · intro ip h
        exact hi.2.1 ip (hs.2.1 ip h)
      · intro ip h
        rcases hi.2.2.1 ip h with h1 | h1
        · rcases hs.2.2.1 ip h1 with h2 | h2
          · exact Or.inl h2
          · exact Or.inr (h2.1 ▸ Ne.symm hvu)
        · exact Or.inr h1
      · exact le_trans hs.2.2.2.1 hi.2.2.2.1
      · intro hb
        exact hi.2.2.2.2 (hs.2.2.2.2 hb)

/-- The spec's three same-speaker boundary rules at the default settings,
evaluated on the FIFO after the new utterance has been appended. -/
def boundaryCond (u : Utt) (fifo1 : List Utt) : Prop :=
  u.ended_at - fifo1.headI.started_at ≥ 60 * 1000 ∨
  (u.ended_at - fifo1.headI.started_at ≥ 15 * 1000 ∧ 2 ≤ fifo1.length) ∨
  3 ≤ fifo1.length

instance (u : Utt) (l : List Utt) : Decidable (boundaryCond u l) := by
  unfold boundaryCond
  infer_instance

lemma on_utterance_created_eq (cfg : Settings) (now : Int) (u : Utt)
    (st : BDState) :
    on_utterance_created cfg now u st =
      (if is_boundary cfg
          ((lookupPending u.user_id st.pending).getD [] ++ [u]) u
       then create_idea now u.session_id u.user_id
         (BDState.mk
           (setPending u.user_id
             ((lookupPending u.user_id st.pending).getD [] ++ [u]) st.pending)
           st.ideas st.queue st.nextIdeaId)
       else BDState.mk
         (setPending u.user_id
           ((lookupPending u.user_id st.pending).getD [] ++ [u]) st.pending)
         st.ideas st.queue st.nextIdeaId) := rfl

/-- C3: boundary firing rules.  Same speaker: after the new utterance u is
appended to its speaker's FIFO, an idea is created exactly when one of the
three rules holds (span from first pending started_at to u's ended_at at
least 60 s; span at least 15 s with at least two pending; at least three
pending) — otherwise the FIFO keeps accumulating.  Different speaker: the new
utterance fires a boundary on each other speaker v with a non-empty FIFO
exactly when the new utterance's started_at minus v's last pending ended_at
is at least 800 ms (idea_boundary_silence_ms), clearing v's FIFO and
producing a new idea from it. -/
theorem boundary_rules_spec (now t : Int) (u : Utt) (st sc : BDState)
    (sid : String) (new_user v : Int) (fifo : List Utt)
    (hv : v ≠ new_user) (hne : fifo ≠ [])
    (hlk : lookupPending v sc.pending = some fifo)
    (hkeys : (sc.pending.map Prod.fst).Nodup)
    (hb : ∀ ip ∈ sc.ideas, ip.id < sc.nextIdeaId) :
    (boundaryCond u ((lookupPending u.user_id st.pending).getD [] ++ [u]) →
      (on_utterance_created defaultSettings now u st).ideas.length =
        st.ideas.length + 1 ∧
      lookupPending u.user_id
        (on_utterance_created defaultSettings now u st).pending = some []) ∧
    (¬ boundaryCond u ((lookupPending u.user_id st.pending).getD [] ++ [u]) →
      (on_utterance_created defaultSettings now u st).ideas = st.ideas ∧
      lookupPending u.user_id
        (on_utterance_created defaultSettings now u st).pending =
          some ((lookupPending u.user_id st.pending).getD [] ++ [u])) ∧
    (t - (fifo.getLast hne).ended_at ≥ 800 →
      lookupPending v
        (check_speaker_change defaultSettings now sid new_user t sc).pending =
          some [] ∧
      ∃ ip ∈ (check_speaker_change defaultSettings now sid new_user t sc).ideas,
        ip ∉ sc.ideas ∧ ip.payload.user_id = v ∧
        ip.payload.utterance_ids = fifo.map Utt.id) ∧
    (t - (fifo.getLast hne).ended_at < 800 →
      lookupPending v
        (check_speaker_change defaultSettings now sid new_user t sc).pending =
          some fifo ∧
      ∀ ip ∈ (check_speaker_change defaultSettings now sid new_user t sc).ideas,
        ip.payload.user_id = v → ip ∈ sc.ideas) := by
  have hne1 : (lookupPending u.user_id st.pending).getD [] ++ [u] ≠ [] := by
    simp
  have hlk1 : lookupPending u.user_id
      (setPending u.user_id
        ((lookupPending u.user_id st.pending).getD [] ++ [u]) st.pending) =
      some ((lookupPending u.user_id st.pending).getD [] ++ [u]) :=
    lookupPending_setPending_self _ _ _
  refine ⟨?_, ?_, ?_, ?_⟩
  · intro hcond
    have hbd : is_boundary defaultSettings
        ((lookupPending u.user_id st.pending).getD [] ++ [u]) u = true :=
      (is_boundary_iff u _ hne1).mpr hcond
    rw [on_utterance_created_eq, if_pos hbd]
    rcases hf1 : (lookupPending u.user_id st.pending).getD [] ++ [u] with _ | ⟨q0, qrest⟩
    · exact absurd hf1 hne1
    · have hlk2 : lookupPending u.user_id
          (setPending u.user_id
            ((lookupPending u.user_id st.pending).getD [] ++ [u]) st.pending) =
          some (q0 :: qrest) := by rw [hlk1, hf1]
      rw [hf1] at hlk2
      constructor
      · have hidea : (create_idea now u.session_id u.user_id
            (BDState.mk (setPending u.user_id (q0 :: qrest) st.pending)
              st.ideas st.queue st.nextIdeaId)).ideas =
            st.ideas ++ [{ id := st.nextIdeaId,
                           payload := create_idea_payload
                             ((q0 :: qrest).map Utt.id) u.session_id u.user_id
                             (String.intercalate " "
                               ((q0 :: qrest).map Utt.text))
                             q0.started_at
                             (((q0 :: qrest).getLast
                               (List.cons_ne_nil q0 qrest)).ended_at) }] := by
          simp only [create_idea, hlk2]
        rw [hidea]
        simp
      · have hpend : (create_idea now u.session_id u.user_id
            (BDState.mk (setPending u.user_id (q0 :: qrest) st.pending)
              st.ideas st.queue st.nextIdeaId)).pending =
            setPending u.user_id []
              (setPending u.user_id (q0 :: qrest) st.pending) := by
          simp only [create_idea, hlk2]
        rw [hpend]
        exact lookupPending_setPending_self _ _ _
  · intro hcond
    have hbd : is_boundary defaultSettings
        ((lookupPending u.user_id st.pending).getD [] ++ [u]) u = false := by
      rw [Bool.eq_false_iff]
      intro hc
      exact hcond ((is_boundary_iff u _ hne1).mp hc)
    rw [on_utterance_created_eq, hbd]
    simp only [Bool.false_eq_true, if_false]
    exact ⟨by trivial, hlk1⟩
  · intro hgap
    cases fifo with
    | nil => exact absurd rfl hne
    | cons f0 frest =>
        have hvmem : v ∈ sc.pending.map Prod.fst := lookup_mem_keys v _ _ hlk
        rcases List.append_of_mem hvmem with ⟨l1, l2, hsplit⟩
        have hnd := hsplit ▸ hkeys
        have hvl1 : v ∉ l1 := by
          rcases List.nodup_append.mp hnd with ⟨_, _, hdisj⟩
          intro hmem
          exact hdisj hmem (List.mem_cons_self v l2)
        have hvl2 : v ∉ l2 := by
          rcases List.nodup_append.mp hnd with ⟨_, hnd2, _⟩
          exact (List.nodup_cons.mp hnd2).1
        have hmid := csc_go_preserve defaultSettings now sid new_user t l1 sc v hvl1
        have hlkmid : lookupPending v
            (csc_go defaultSettings now sid new_user t l1 sc).pending =
            some (f0 :: frest) := by rw [hmid.1, hlk]
        have hvb : (v == new_user) = false := by simp [hv]
        have hstep : csc_step defaultSettings now sid new_user t v
            (csc_go defaultSettings now sid new_user t l1 sc) =
            create_idea now sid v
              (csc_go defaultSettings now sid new_user t l1 sc) := by
          unfold csc_step
          rw [hvb]
          simp only [Bool.false_eq_true, if_false]
          rw [hlkmid]
          exact if_pos hgap
        have hci : (create_idea now sid v
            (csc_go defaultSettings now sid new_user t l1 sc)).ideas =
            (csc_go defaultSettings now sid new_user t l1 sc).ideas ++
            [{ id := (csc_go defaultSettings now sid new_user t l1 sc).nextIdeaId,
               payload := create_idea_payload ((f0 :: frest).map Utt.id) sid v
                 (String.intercalate " " ((f0 :: frest).map Utt.text))
                 f0.started_at
                 (((f0 :: frest).getLast (List.cons_ne_nil f0 frest)).ended_at) }] := by
          simp only [create_idea, hlkmid]
        have hcp : (create_idea now sid v
            (csc_go defaultSettings now sid new_user t l1 sc)).pending =
            setPending v []
              (csc_go defaultSettings now sid new_user t l1 sc).pending := by
          simp only [create_idea, hlkmid]
        have hfin : check_speaker_change defaultSettings now sid new_user t sc =
            csc_go defaultSettings now sid new_user t l2
              (csc_step defaultSettings now sid new_user t v
                (csc_go defaultSettings now sid new_user t l1 sc)) := by
          unfold check_speaker_change
          rw [hsplit, csc_go_append, csc_go_cons]
        have hpost := csc_go_preserve defaultSettings now sid new_user t l2
          (csc_step defaultSettings now sid new_user t v
            (csc_go defaultSettings now sid new_user t l1 sc)) v hvl2
        rw [hfin]
        constructor
        · rw [hpost.1, hstep, hcp]
          exact lookupPending_setPending_self _ _ _
        · refine ⟨IdeaPoint.mk
              (csc_go defaultSettings now sid new_user t l1 sc).nextIdeaId
              (create_idea_payload ((f0 :: frest).map Utt.id) sid v
                (String.intercalate " " ((f0 :: frest).map Utt.text))
                f0.started_at
                (((f0 :: frest).getLast (List.cons_ne_nil f0 frest)).ended_at)),
            ?_, ?_, rfl, rfl⟩
          · apply hpost.2.1
            rw [hstep, hci]
            exact List.mem_append_right _ (List.mem_singleton_self _)
          · intro hmem
            have hlt := hb _ hmem
            have hmono := hmid.2.2.2.1
            simp only at hlt
            omega
  · intro hgap
    cases fifo with
    | nil => exact absurd rfl hne
    | cons f0 frest =>
        have hvmem : v ∈ sc.pending.map Prod.fst := lookup_mem_keys v _ _ hlk
        rcases List.append_of_mem hvmem with ⟨l1, l2, hsplit⟩
        have hnd := hsplit ▸ hkeys
        have hvl1 : v ∉ l1 := by
          rcases List.nodup_append.mp hnd with ⟨_, _, hdisj⟩
          intro hmem
          exact hdisj hmem (List.mem_cons_self v l2)
        have hvl2 : v ∉ l2 := by
          rcases List.nodup_append.mp hnd with ⟨_, hnd2, _⟩
          exact (List.nodup_cons.mp hnd2).1
        have hmid := csc_go_preserve defaultSettings now sid new_user t l1 sc v hvl1
        have hlkmid : lookupPending v
            (csc_go defaultSettings now sid new_user t l1 sc).pending =
            some (f0 :: frest) := by rw [hmid.1, hlk]
        have hvb : (v == new_user) = false := by simp [hv]
        have hstep : csc_step defaultSettings now sid new_user t v
            (csc_go defaultSettings now sid new_user t l1 sc) =
            csc_go defaultSettings now sid new_user t l1 sc := by
          unfold csc_step
          rw [hvb]
          simp only [Bool.false_eq_true, if_false]
          rw [hlkmid]
          have h800 : defaultSettings.idea_boundary_silence_ms = 800 := rfl
          exact if_neg (by rw [h800]; omega)
        have hfin : check_speaker_change defaultSettings now sid new_user t sc =
            csc_go defaultSettings now sid new_user t l2
              (csc_step defaultSettings now sid new_user t v
                (csc_go defaultSettings now sid new_user t l1 sc)) := by
          unfold check_speaker_change
          rw [hsplit, csc_go_append, csc_go_cons]
        rw [hfin, hstep]
        have hpost := csc_go_preserve defaultSettings now sid new_user t l2
          (csc_go defaultSettings now sid new_user t l1 sc) v hvl2
        constructor
        · rw [hpost.1, hlkmid]
        · intro ip hip huser
          rcases hpost.2.2.1 ip hip with h1 | h1
          · rcases hmid.2.2.1 ip h1 with h2 | h2
            · exact h2
            · exact absurd huser h2
          · exact absurd huser h1

def w3utt : Utt :=
  { id := 20, session_id := "s", user_id := 2, text := "x",
    started_at := 100, ended_at := 1000, sequence_num := 1 }

def w3sc : BDState :=
  { pending := [(2, [w3utt])], ideas := [],
    queue := { rows := [], nextId := 0 }, nextIdeaId := 0 }

def w3u : Utt :=
  { id := 21, session_id := "s", user_id := 1, text := "y",
    started_at := 2200, ended_at := 3000, sequence_num := 2 }

theorem boundary_rules_spec_witness :
    (boundaryCond w3u ((lookupPending w3u.user_id bd0.pending).getD [] ++ [w3u]) →
      (on_utterance_created defaultSettings 0 w3u bd0).ideas.length =
        bd0.ideas.length + 1 ∧
      lookupPending w3u.user_id
        (on_utterance_created defaultSettings 0 w3u bd0).pending = some []) ∧
    (¬ boundaryCond w3u ((lookupPending w3u.user_id bd0.pending).getD [] ++ [w3u]) →
      (on_utterance_created defaultSettings 0 w3u bd0).ideas = bd0.ideas ∧
      lookupPending w3u.user_id
        (on_utterance_created defaultSettings 0 w3u bd0).pending =
          some ((lookupPending w3u.user_id bd0.pending).getD [] ++ [w3u])) ∧
    ((2200 : Int) - ([w3utt].getLast (List.cons_ne_nil w3utt [])).ended_at ≥ 800 →
      lookupPending 2
        (check_speaker_change defaultSettings 0 "s" 1 2200 w3sc).pending =
          some [] ∧
      ∃ ip ∈ (check_speaker_change defaultSettings 0 "s" 1 2200 w3sc).ideas,
        ip ∉ w3sc.ideas ∧ ip.payload.user_id = 2 ∧
        ip.payload.utterance_ids = [w3utt].map Utt.id) ∧
    ((2200 : Int) - ([w3utt].getLast (List.cons_ne_nil w3utt [])).ended_at < 800 →
      lookupPending 2
        (check_speaker_change defaultSettings 0 "s" 1 2200 w3sc).pending =
          some [w3utt] ∧
      ∀ ip ∈ (check_speaker_change defaultSettings 0 "s" 1 2200 w3sc).ideas,
        ip.payload.user_id = 2 → ip ∈ w3sc.ideas) :=
  boundary_rules_spec 0 2200 w3u bd0 w3sc "s" 1 2 [w3utt]
    (by decide) (List.cons_ne_nil w3utt []) (by decide) (by decide) (by decide)

/-- Outcome dict appended per item by a handler: {'status': ..., 'error': ...}. -/
structure HRes where
  status : String
  error : Option String
deriving DecidableEq, Repr

/-- get_idea (idea_repo.py lines 125-155) over the ideas collection. -/
def get_idea (store : List IdeaPoint) (idea_id : Nat) : Option IdeaPoint :=
  store.find? (fun ip => ip.id == idea_id)

/-- filtered.sort(key=ended_at, reverse=True)[0]: Python's sort is stable, so
the descending sort puts the first-occurring element of maximal ended_at
first; this recursion returns exactly that element. -/
def first_max_ended_aux (best : IdeaPoint) : List IdeaPoint → IdeaPoint
  | [] => best
  | ip :: rest =>
      if ip.payload.ended_at > best.payload.ended_at
      then first_max_ended_aux ip rest
      else first_max_ended_aux best rest

def first_max_ended : List IdeaPoint → Option IdeaPoint
  | [] => none
  | ip :: rest => some (first_max_ended_aux ip rest)

/-- get_previous_idea (idea_repo.py lines 376-413): ideas of the session with
ended_at strictly before the timestamp and a different user, most recent
first. -/
def get_previous_idea (store : List IdeaPoint) (session_id : String)
    (before_timestamp : Int) (user_id : Int) : Option IdeaPoint :=
  first_max_ended
    ((store.filter (fun ip => ip.payload.session_id == session_id)).filter
      (fun ip => decide (ip.payload.ended_at < before_timestamp) &&
        !(ip.payload.user_id == user_id)))

/-- update_enrichments (idea_repo.py lines 157-211) for the field set the
response-mapping handler writes: read-modify-write of the idea's payload,
setting is_response_to_idea_id / response_latency_ms when given, and always
setting the dotted key enrichment_status.response_mapping to complete.
Returns none when the idea is not found. -/
def apply_response_update (resp : Option (String × Int)) (ip : IdeaPoint) :
    IdeaPoint :=
  { ip with payload :=
    { ip.payload with
        is_response_to_idea_id :=
          (match resp with
           | some rp => some rp.1
           | none => ip.payload.is_response_to_idea_id),
        response_latency_ms :=
          (match resp with
           | some rp => some rp.2
           | none => ip.payload.response_latency_ms),
        enrichment_status :=
          { ip.payload.enrichment_status with
              response_mapping := "complete" } } }

def update_response_enrichments (store : List IdeaPoint) (idea_id : Nat)
    (resp : Option (String × Int)) : Option (List IdeaPoint) :=
  match store.find? (fun ip => ip.id == idea_id) with
  | none => none
  | some _ => some (store.map (fun ip =>
      if ip.id == idea_id then apply_response_update resp ip else ip))

/-- ResponseMappingHandler.process for one item
(services/enrichment/handlers/response_mapping.py lines 28-86).  The
payload.get('prosody_interpretation', {}) call returns the stored null when
prosody interpretation has not run yet, and None.get(...) then raises
AttributeError, caught by the per-item except branch. -/
def response_mapping_process_one (cfg : Settings) (store : List IdeaPoint)
    (target_id : Nat) : HRes × List IdeaPoint :=
  match get_idea store target_id with
  | none => ({ status := "failed", error := some "Idea not found" }, store)
  | some idea =>
      match get_previous_idea store idea.payload.session_id
          idea.payload.started_at idea.payload.user_id with
      | none =>
          (match update_response_enrichments store target_id none with
           | some store2 => ({ status := "complete", error := none }, store2)
           | none =>
               ({ status := "failed", error := some "Failed to update idea" },
                store))
      | some prev =>
          if idea.payload.started_at - prev.payload.ended_at ≤
              cfg.response_mapping_time_threshold_ms then
            match prev.payload.prosody_interpretation with
            | none =>
                ({ status := "failed",
                   error := some
                     "AttributeError: NoneType object has no attribute get" },
                 store)
            | some pr =>
                if pr.is_complete.getD true ∨
                    idea.payload.started_at - prev.payload.ended_at < 1000 then
                  (match update_response_enrichments store target_id
                      (some (toString prev.id,
                        idea.payload.started_at - prev.payload.ended_at)) with
                   | some store2 => ({ status := "complete", error := none }, store2)
                   | none =>
                       ({ status := "failed",
                          error := some "Failed to update idea" }, store))
                else
                  (match update_response_enrichments store target_id none with
                   | some store2 => ({ status := "complete", error := none }, store2)
                   | none =>
                       ({ status := "failed",
                          error := some "Failed to update idea" }, store))
          else
            (match update_response_enrichments store target_id none with
             | some store2 => ({ status := "complete", error := none }, store2)
             | none =>
                 ({ status := "failed",
                    error := some "Failed to update idea" }, store))

lemma first_max_ended_aux_spec (l : List IdeaPoint) (best : IdeaPoint) :
    (first_max_ended_aux best l = best ∨ first_max_ended_aux best l ∈ l) ∧
    best.payload.ended_at ≤ (first_max_ended_aux best l).payload.ended_at ∧
    ∀ q ∈ l, q.payload.ended_at ≤ (first_max_ended_aux best l).payload.ended_at := by
  induction l generalizing best with
  | nil =>
      exact ⟨Or.inl rfl, le_refl _, fun q hq => absurd hq (List.not_mem_nil q)⟩
  | cons ip rest ih =>
      simp only [first_max_ended_aux]
      by_cases hgt : ip.payload.ended_at > best.payload.ended_at
      · rw [if_pos hgt]
        have ihh := ih ip
        refine ⟨?_, ?_, ?_⟩
        · rcases ihh.1 with h | h
          · exact Or.inr (by rw [h]; exact List.mem_cons_self ip rest)
          · exact Or.inr (List.mem_cons_of_mem _ h)
        · exact le_trans (le_of_lt hgt) ihh.2.1
        · intro q hq
          rcases List.mem_cons.mp hq with rfl | hq
          · exact ihh.2.1
          · exact ihh.2.2 q hq
      · rw [if_neg hgt]
        have ihh := ih best
        refine ⟨?_, ?_, ?_⟩
        · rcases ihh.1 with h | h
          · exact Or.inl h
          · exact Or.inr (List.mem_cons_of_mem _ h)
        · exact ihh.2.1
        · intro q hq
          rcases List.mem_cons.mp hq with rfl | hq
          · exact le_trans (not_lt.mp hgt) ihh.2.1
          · exact ihh.2.2 q hq

lemma first_max_ended_spec (l : List IdeaPoint) (p : IdeaPoint)
    (h : first_max_ended l = some p) :
    p ∈ l ∧ ∀ q ∈ l, q.payload.ended_at ≤ p.payload.ended_at := by
  cases l with
  | nil => cases h
  | cons ip rest =>
      simp only [first_max_ended] at h
      cases h
      have haux := first_max_ended_aux_spec rest ip
      refine ⟨?_, ?_⟩
      · rcases haux.1 with h | h
        · rw [h]; exact List.mem_cons_self ip rest
        · exact List.mem_cons_of_mem _ h
      · intro q hq
        rcases List.mem_cons.mp hq with rfl | hq
        · exact haux.2.1
        · exact haux.2.2 q hq

lemma get_previous_idea_spec (store : List IdeaPoint) (sid : String)
    (before : Int) (uid : Int) (p : IdeaPoint)
    (h : get_previous_idea store sid before uid = some p) :
    p ∈ store ∧ p.payload.session_id = sid ∧ p.payload.user_id ≠ uid ∧
    p.payload.ended_at < before ∧
    ∀ q ∈ store, q.payload.session_id = sid → q.payload.user_id ≠ uid →
      q.payload.ended_at < before →
      q.payload.ended_at ≤ p.payload.ended_at := by
  unfold get_previous_idea at h
  have hs := first_max_ended_spec _ p h
  have hmem := hs.1
  simp only [List.mem_filter, Bool.and_eq_true, decide_eq_true_eq,
    beq_iff_eq, Bool.not_eq_eq_eq_not, Bool.not_true, beq_eq_false_iff_ne] at hmem
  obtain ⟨⟨hstore, hsess⟩, hlt, hneq⟩ := hmem
  refine ⟨hstore, hsess, hneq, hlt, ?_⟩
  intro q hq h1 h2 h3
  apply hs.2
  simp only [List.mem_filter, Bool.and_eq_true, decide_eq_true_eq,
    beq_iff_eq, Bool.not_eq_eq_eq_not, Bool.not_true, beq_eq_false_iff_ne]
  exact ⟨⟨hq, h1⟩, h3, h2⟩

lemma find?_map_id_pres (l : List IdeaPoint) (f : IdeaPoint → IdeaPoint)
    (hf : ∀ ip, (f ip).id = ip.id) (i : Nat) :
    (l.map f).find? (fun ip => ip.id == i) =
      (l.find? (fun ip => ip.id == i)).map f := by
  induction l with
  | nil => rfl
  | cons a l ih =>
      by_cases hc : (a.id == i) = true
      · have hfc : ((f a).id == i) = true := by rw [hf]; exact hc
        simp [List.find?_cons, hc, hfc]
      · have hc' : (a.id == i) = false := Bool.eq_false_iff.mpr hc
        have hfc : ((f a).id == i) = false := by rw [hf]; exact hc'
        simp [List.find?_cons, hc', hfc, ih]

lemma update_response_get (store : List IdeaPoint) (tid : Nat)
    (idea : IdeaPoint) (resp : Option (String × Int))
    (hfind : get_idea store tid = some idea) :
    update_response_enrichments store tid resp =
      some (store.map (fun ip =>
        if ip.id == tid then apply_response_update resp ip else ip)) ∧
    get_idea (store.map (fun ip =>
        if ip.id == tid then apply_response_update resp ip else ip)) tid =
      some (apply_response_update resp idea) := by
  have hfind2 : store.find? (fun ip => ip.id == tid) = some idea := hfind
  have hidt := List.find?_some hfind2
  constructor
  · unfold update_response_enrichments
    unfold get_idea at hfind
    rw [hfind]
  · unfold get_idea
    rw [find?_map_id_pres]
    · unfold get_idea at hfind
      rw [hfind]
      simp only [Option.map_some']
      rw [if_pos hidt]
    · intro ip
      by_cases hip : (ip.id == tid) = true
      · rw [if_pos hip]; rfl
      · rw [if_neg hip]

/-- C6 (amended): for an idea with a most recent prior idea from a different
speaker in the same session (first conjunct: the prior idea the handler uses
is exactly that), the handler sets is_response_to_idea_id and
response_latency_ms exactly when the latency is at most
response_mapping_time_threshold_ms (default 5000) AND the prior idea's
prosody_interpretation is PRESENT with is_complete true-or-absent (an absent
key defaults to complete) or latency below 1000; when the prior idea's
prosody_interpretation is null (prosody interpretation not yet run) and the
latency is within threshold, the item FAILS with an AttributeError and
nothing is written — not even enrichment_status; in every successful run
enrichment_status.response_mapping is set to complete. -/
theorem response_mapping_spec (store : List IdeaPoint) (tid : Nat)
    (idea prev : IdeaPoint)
    (hfind : get_idea store tid = some idea)
    (hprev : get_previous_idea store idea.payload.session_id
      idea.payload.started_at idea.payload.user_id = some prev) :
    (prev ∈ store ∧ prev.payload.session_id = idea.payload.session_id ∧
      prev.payload.user_id ≠ idea.payload.user_id ∧
      prev.payload.ended_at < idea.payload.started_at ∧
      ∀ q ∈ store, q.payload.session_id = idea.payload.session_id →
        q.payload.user_id ≠ idea.payload.user_id →
        q.payload.ended_at < idea.payload.started_at →
        q.payload.ended_at ≤ prev.payload.ended_at) ∧
    (prev.payload.prosody_interpretation = none →
      idea.payload.started_at - prev.payload.ended_at ≤ 5000 →
      response_mapping_process_one defaultSettings store tid =
        ({ status := "failed",
           error := some
             "AttributeError: NoneType object has no attribute get" },
         store)) ∧
    (∀ pr, prev.payload.prosody_interpretation = some pr →
      idea.payload.started_at - prev.payload.ended_at ≤ 5000 →
      (pr.is_complete.getD true ∨
        idea.payload.started_at - prev.payload.ended_at < 1000) →
      (response_mapping_process_one defaultSettings store tid).1 =
        { status := "complete", error := none } ∧
      get_idea (response_mapping_process_one defaultSettings store tid).2 tid =
        some (apply_response_update
          (some (toString prev.id,
            idea.payload.started_at - prev.payload.ended_at)) idea)) ∧
    (∀ pr, prev.payload.prosody_interpretation = some pr →
      idea.payload.started_at - prev.payload.ended_at ≤ 5000 →
      ¬ (pr.is_complete.getD true ∨
        idea.payload.started_at - prev.payload.ended_at < 1000) →
      (response_mapping_process_one defaultSettings store tid).1 =
        { status := "complete", error := none } ∧
      get_idea (response_mapping_process_one defaultSettings store tid).2 tid =
        some (apply_response_update none idea)) ∧
    (idea.payload.started_at - prev.payload.ended_at > 5000 →
      (response_mapping_process_one defaultSettings store tid).1 =
        { status := "complete", error := none } ∧
      get_idea (response_mapping_process_one defaultSettings store tid).2 tid =
        some (apply_response_update none idea)) := by
  have hchar := get_previous_idea_spec store idea.payload.session_id
    idea.payload.started_at idea.payload.user_id prev hprev
  refine ⟨⟨hchar.1, hchar.2.1, hchar.2.2.1, hchar.2.2.2.1, hchar.2.2.2.2⟩,
    ?_, ?_, ?_, ?_⟩
  · intro hpros hle
    have hle2 : idea.payload.started_at - prev.payload.ended_at ≤
        defaultSettings.response_mapping_time_threshold_ms := by
      rw [show defaultSettings.response_mapping_time_threshold_ms = 5000
        from rfl]
      exact hle
    simp only [response_mapping_process_one, hfind, hprev]
    rw [if_pos hle2, hpros]
  · intro pr hpros hle hcond
    have hle2 : idea.payload.started_at - prev.payload.ended_at ≤
        defaultSettings.response_mapping_time_threshold_ms := by
      rw [show defaultSettings.response_mapping_time_threshold_ms = 5000
        from rfl]
      exact hle
    simp only [response_mapping_process_one, hfind, hprev]
    rw [if_pos hle2]
    simp only [hpros]
    rw [if_pos hcond]
    have hu := update_response_get store tid idea
      (some (toString prev.id,
        idea.payload.started_at - prev.payload.ended_at)) hfind
    rw [hu.1]
    exact ⟨rfl, hu.2⟩
  · intro pr hpros hle hcond
    have hle2 : idea.payload.started_at - prev.payload.ended_at ≤
        defaultSettings.response_mapping_time_threshold_ms := by
      rw [show defaultSettings.response_mapping_time_threshold_ms = 5000
        from rfl]
      exact hle
    simp only [response_mapping_process_one, hfind, hprev]
    rw [if_pos hle2]
    simp only [hpros]
    rw [if_neg hcond]
    have hu := update_response_get store tid idea none hfind
    rw [hu.1]
    exact ⟨rfl, hu.2⟩
  · intro hgt
    have hx : ¬ (idea.payload.started_at - prev.payload.ended_at ≤
        defaultSettings.response_mapping_time_threshold_ms) := by
      rw [show defaultSettings.response_mapping_time_threshold_ms = 5000
        from rfl]
      omega
    simp only [response_mapping_process_one, hfind, hprev]
    rw [if_neg hx]
    have hu := update_response_get store tid idea none hfind
    rw [hu.1]
    exact ⟨rfl, hu.2⟩

def c6prev : IdeaPoint :=
  { id := 0, payload := create_idea_payload [1] "s" 1 "first" 0 10000 }

def c6idea : IdeaPoint :=
  { id := 1, payload := create_idea_payload [2] "s" 2 "reply" 10800 12000 }

def c6store : List IdeaPoint := [c6prev, c6idea]

/-- C6 counterexample: speaker 1's idea ends at 10000 but its
prosody_interpretation is still null (the prosody task has not run); speaker
2 starts at 10800, latency 800 ms — within the 5000 ms threshold and below
1000 ms, so the claim says the response fields are set.  The code instead
raises on None.get, marks the item failed, and writes nothing: no response
fields, and enrichment_status.response_mapping still pending. -/
theorem response_mapping_counterexample :
    (10800 : Int) - 10000 ≤ 5000 ∧ (10800 : Int) - 10000 < 1000 ∧
    response_mapping_process_one defaultSettings c6store 1 =
      ({ status := "failed",
         error := some "AttributeError: NoneType object has no attribute get" },
       c6store) ∧
    (get_idea c6store 1).map (fun ip => ip.payload.is_response_to_idea_id) =
      some none ∧
    (get_idea c6store 1).map
      (fun ip => ip.payload.enrichment_status.response_mapping) =
        some "pending" := by
  decide

def w6prev : IdeaPoint :=
  { id := 3, payload :=
      { create_idea_payload [1] "s" 1 "q" 0 10000 with
          prosody_interpretation := some { is_complete := some true } } }

def w6idea : IdeaPoint :=
  { id := 4, payload := create_idea_payload [2] "s" 2 "a" 10800 12000 }

def w6store : List IdeaPoint := [w6prev, w6idea]

theorem response_mapping_spec_witness :
    (w6prev ∈ w6store ∧
      w6prev.payload.session_id = w6idea.payload.session_id ∧
      w6prev.payload.user_id ≠ w6idea.payload.user_id ∧
      w6prev.payload.ended_at < w6idea.payload.started_at ∧
      ∀ q ∈ w6store, q.payload.session_id = w6idea.payload.session_id →
        q.payload.user_id ≠ w6idea.payload.user_id →
        q.payload.ended_at < w6idea.payload.started_at →
        q.payload.ended_at ≤ w6prev.payload.ended_at) ∧
    (w6prev.payload.prosody_interpretation = none →
      w6idea.payload.started_at - w6prev.payload.ended_at ≤ 5000 →
      response_mapping_process_one defaultSettings w6store 4 =
        ({ status := "failed",
           error := some
             "AttributeError: NoneType object has no attribute get" },
         w6store)) ∧
    (∀ pr, w6prev.payload.prosody_interpretation = some pr →
      w6idea.payload.started_at - w6prev.payload.ended_at ≤ 5000 →
      (pr.is_complete.getD true ∨
        w6idea.payload.started_at - w6prev.payload.ended_at < 1000) →
      (response_mapping_process_one defaultSettings w6store 4).1 =
        { status := "complete", error := none } ∧
      get_idea (response_mapping_process_one defaultSettings w6store 4).2 4 =
        some (apply_response_update
          (some (toString w6prev.id,
            w6idea.payload.started_at - w6prev.payload.ended_at)) w6idea)) ∧
    (∀ pr, w6prev.payload.prosody_interpretation = some pr →
      w6idea.payload.started_at - w6prev.payload.ended_at ≤ 5000 →
      ¬ (pr.is_complete.getD true ∨
        w6idea.payload.started_at - w6prev.payload.ended_at < 1000) →
      (response_mapping_process_one defaultSettings w6store 4).1 =
        { status := "complete", error := none } ∧
      get_idea (response_mapping_process_one defaultSettings w6store 4).2 4 =
        some (apply_response_update none w6idea)) ∧
    (w6idea.payload.started_at - w6prev.payload.ended_at > 5000 →
      (response_mapping_process_one defaultSettings w6store 4).1 =
        { status := "complete", error := none } ∧
      get_idea (response_mapping_process_one defaultSettings w6store 4).2 4 =
        some (apply_response_update none w6idea)) :=
  response_mapping_spec w6store 4 w6idea w6prev (by decide) (by decide)

/-- AudioBuffer (transcription.py lines 16-90); samples are rationals in
lieu of numpy float32 and timestamps are integer clock readings. -/
structure AudioBuffer where
  audio_data : List (List ℚ)
  started_at : Option Int
  last_audio_at : Option Int
deriving DecidableEq, Repr

/-- Mean of the squared samples.  The code compares sqrt of this mean with a
nonnegative threshold t; since sqrt is monotone, rms > t iff rmsSq > t*t,
which keeps the comparison computable. -/
def rmsSq (audio : List ℚ) : ℚ :=
  (audio.map (fun x => x * x)).sum / audio.length

/-- AudioBuffer.add_audio (transcription.py lines 27-53): append the chunk
unconditionally; on the very first chunk initialize started_at AND
last_audio_at; afterwards update last_audio_at only when the chunk's RMS
exceeds vad_threshold (default 0.1). -/
def add_audio (now : Int) (buf : AudioBuffer) (audio : List ℚ)
    (vad_threshold : ℚ) : AudioBuffer :=
  if buf.started_at.isNone then
    if rmsSq audio > vad_threshold * vad_threshold then
      { audio_data := buf.audio_data ++ [audio], started_at := some now,
        last_audio_at := some now }
    else
      { audio_data := buf.audio_data ++ [audio], started_at := some now,
        last_audio_at := some now }
  else
    if rmsSq audio > vad_threshold * vad_threshold then
      { audio_data := buf.audio_data ++ [audio],
        started_at := buf.started_at, last_audio_at := some now }
    else
      { audio_data := buf.audio_data ++ [audio],
        started_at := buf.started_at, last_audio_at := buf.last_audio_at }

/-- C7 (amended): every append adds the chunk's samples unconditionally; for
a buffer that already has audio, last_voiced_at is updated exactly when the
chunk's RMS exceeds the VAD threshold (rms > t, i.e. rmsSq > t^2) and is
left unchanged otherwise; but the FIRST append to an empty buffer
initializes both started_at and last_voiced_at to now regardless of the
chunk's RMS, so a silent first chunk does move last_voiced_at. -/
theorem add_audio_spec (now : Int) (buf : AudioBuffer) (audio : List ℚ)
    (t : ℚ) :
    (add_audio now buf audio t).audio_data = buf.audio_data ++ [audio] ∧
    (buf.started_at ≠ none →
      (add_audio now buf audio t).started_at = buf.started_at ∧
      (add_audio now buf audio t).last_audio_at =
        (if rmsSq audio > t * t then some now else buf.last_audio_at)) ∧
    (buf.started_at = none →
      (add_audio now buf audio t).started_at = some now ∧
      (add_audio now buf audio t).last_audio_at = some now) := by
  unfold add_audio
  by_cases h0 : buf.started_at.isNone
  · rw [if_pos h0]
    have hn : buf.started_at = none := Option.isNone_iff_eq_none.mp h0
    by_cases h1 : rmsSq audio > t * t
    · rw [if_pos h1]
      exact ⟨rfl, fun hc => absurd hn hc, fun _ => ⟨rfl, rfl⟩⟩
    · rw [if_neg h1]
      exact ⟨rfl, fun hc => absurd hn hc, fun _ => ⟨rfl, rfl⟩⟩
  · rw [if_neg h0]
    have hn : buf.started_at ≠ none := by
      intro hc
      exact h0 (Option.isNone_iff_eq_none.mpr hc)
    by_cases h1 : rmsSq audio > t * t
    · rw [if_pos h1]
      refine ⟨rfl, fun _ => ⟨rfl, ?_⟩, fun hc => absurd hc hn⟩
      rw [if_pos h1]
    · rw [if_neg h1]
      refine ⟨rfl, fun _ => ⟨rfl, ?_⟩, fun hc => absurd hc hn⟩
      rw [if_neg h1]

def emptyBuf : AudioBuffer :=
  { audio_data := [], started_at := none, last_audio_at := none }

/-- C7 counterexample: appending an entirely silent chunk (RMS 0, below the
0.1 threshold) to an empty buffer changes last_voiced_at from none to now —
the claim says a chunk at or below the threshold leaves it unchanged. -/
theorem add_audio_first_chunk_counterexample :
    ¬ (rmsSq [0, 0] > ((1 : ℚ)/10) * ((1 : ℚ)/10)) ∧
    emptyBuf.last_audio_at = none ∧
    (add_audio 5 emptyBuf [0, 0] (1/10)).last_audio_at = some 5 := by
  refine ⟨?_, rfl, ?_⟩
  · norm_num [rmsSq]
  · unfold add_audio
    split_ifs with h1 h2 <;> first
      | rfl
      | exact absurd (show emptyBuf.started_at.isNone = true from rfl) h1

def w7buf : AudioBuffer :=
  { audio_data := [[1, 1]], started_at := some 1, last_audio_at := some 1 }

theorem add_audio_spec_witness :
    (add_audio 9 w7buf [0, 0] (1/10)).audio_data =
      w7buf.audio_data ++ [[0, 0]] ∧
    (w7buf.started_at ≠ none →
      (add_audio 9 w7buf [0, 0] (1/10)).started_at = w7buf.started_at ∧
      (add_audio 9 w7buf [0, 0] (1/10)).last_audio_at =
        (if rmsSq [0, 0] > ((1 : ℚ)/10) * ((1 : ℚ)/10) then some 9
         else w7buf.last_audio_at)) ∧
    (w7buf.started_at = none →
      (add_audio 9 w7buf [0, 0] (1/10)).started_at = some 9 ∧
      (add_audio 9 w7buf [0, 0] (1/10)).last_audio_at = some 9) :=
  add_audio_spec 9 w7buf [0, 0] (1/10)

structure TranscribeResult where
  text : String
  confidence : ℚ
deriving DecidableEq, Repr

/-- Utterance row as written by create_utterance from _process_buffer. -/
structure UttRow where
  session_id : String
  user_id : Int
  text : String
  started_at : Option Int
  ended_at : Int
  confidence : ℚ
  audio_duration : ℚ
deriving DecidableEq, Repr

/-- TranscriptionService._process_buffer (transcription.py lines 172-256),
with the provider call passed in as transcribe and the utterance table as
store.  The function is total — every discard path returns the store
unchanged rather than raising — which models "no error propagated": no
active session, combined audio shorter than audio_min_duration, overall RMS
below the residual-silence threshold 0.02 (compared on squares), or empty /
whitespace-only transcription text. -/
def process_buffer (sample_rate min_duration : ℚ) (session : Option String)
    (buf : AudioBuffer) (now : Int) (uid : Int)
    (transcribe : List ℚ → TranscribeResult) (store : List UttRow) :
    List UttRow :=
  if buf.audio_data.length = 0 then store
  else if session.isNone then store
  else if (buf.audio_data.flatten.length : ℚ) / sample_rate < min_duration then
    store
  else if rmsSq buf.audio_data.flatten < (2/100) * (2/100) then store
  else if (transcribe buf.audio_data.flatten).text.trim = "" then store
  else store ++
    [{ session_id := session.getD "", user_id := uid,
       text := (transcribe buf.audio_data.flatten).text,
       started_at := buf.started_at, ended_at := now,
       confidence := (transcribe buf.audio_data.flatten).confidence,
       audio_duration := (buf.audio_data.flatten.length : ℚ) / sample_rate }]

/-- C9: a drained buffer whose combined audio is below audio_min_duration,
or whose overall RMS is below the residual-silence threshold 0.02, or whose
transcription is empty or whitespace-only, writes no utterance row; the
discard is silent (process_buffer is total and returns the store as it
was). -/
theorem process_buffer_discard (sample_rate min_duration : ℚ)
    (session : Option String) (buf : AudioBuffer) (now : Int) (uid : Int)
    (transcribe : List ℚ → TranscribeResult) (store : List UttRow)
    (h : (buf.audio_data.flatten.length : ℚ) / sample_rate < min_duration ∨
         rmsSq buf.audio_data.flatten < (2/100) * (2/100) ∨
         (transcribe buf.audio_data.flatten).text.trim = "") :
    process_buffer sample_rate min_duration session buf now uid transcribe
      store = store := by
  unfold process_buffer
  by_cases h0 : buf.audio_data.length = 0
  · rw [if_pos h0]
  · rw [if_neg h0]
    by_cases hs : session.isNone
    · rw [if_pos hs]
    · rw [if_neg hs]
      by_cases h1 : (buf.audio_data.flatten.length : ℚ) / sample_rate <
          min_duration
      · rw [if_pos h1]
      · rw [if_neg h1]
        by_cases h2 : rmsSq buf.audio_data.flatten < (2/100) * (2/100)
        · rw [if_pos h2]
        · rw [if_neg h2]
          by_cases h3 : (transcribe buf.audio_data.flatten).text.trim = ""
          · rw [if_pos h3]
          · rcases h with h | h | h
            · exact absurd h h1
            · exact absurd h h2
            · exact absurd h h3

def w9buf : AudioBuffer :=
  { audio_data := [[1]], started_at := some 0, last_audio_at := some 0 }

theorem process_buffer_discard_witness :
    process_buffer 1 2 (some "s") w9buf 7 1
      (fun _ => { text := "hello", confidence := 0 }) [] = [] :=
  process_buffer_discard 1 2 (some "s") w9buf 7 1
    (fun _ => { text := "hello", confidence := 0 }) []
    (Or.inl (by norm_num [w9buf]))

/-- Pending-idea dict entry kept per session by the exchange detector
(exchange_detector.py lines 54-61). -/
structure XIdea where
  id : String
  user_id : Int
  started_at : Int
  ended_at : Int
  text : String
deriving DecidableEq, Repr, Inhabited

/-- Exchange as written by _create_exchange / create_exchange_payload. -/
structure Exchange where
  idea_ids : List String
  session_id : String
  participant_user_ids : List Int
  combined_text : String
  started_at : Int
  ended_at : Int
deriving DecidableEq, Repr

def intMinList : List Int → Int
  | [] => 0
  | [x] => x
  | x :: y :: xs => min x (intMinList (y :: xs))

def intMaxList : List Int → Int
  | [] => 0
  | [x] => x
  | x :: y :: xs => max x (intMaxList (y :: xs))

/-- Stable insertion: the new element goes before existing elements with the
same started_at, so insertion sort below equals Python's stable sorted(). -/
def insertByStarted (i : XIdea) : List XIdea → List XIdea
  | [] => [i]
  | x :: xs =>
      if x.started_at < i.started_at then x :: insertByStarted i xs
      else i :: x :: xs

def sortByStarted : List XIdea → List XIdea
  | [] => []
  | x :: xs => insertByStarted x (sortByStarted xs)

/-- _create_exchange (exchange_detector.py lines 172-233) with
create_exchange_payload (qdrant_schema.py 95-134): ids in order, the
participant list is list(set(user ids)) — modelled as dedup — text joined,
span = [min started_at, max ended_at]. -/
def create_exchange (session_id : String) (ideas : List XIdea) : Exchange :=
  { idea_ids := ideas.map XIdea.id,
    session_id := session_id,
    participant_user_ids := (ideas.map XIdea.user_id).dedup,
    combined_text := String.intercalate " " (ideas.map XIdea.text),
    started_at := intMinList (ideas.map XIdea.started_at),
    ended_at := intMaxList (ideas.map XIdea.ended_at) }

/-- The checks _check_temporal_join performs on the sorted window: at least
two ideas, every adjacent gap at most 5 s, total span at most 30 s
(exchange_detector.py lines 72-117). -/
def joinCheck (recent : List XIdea) : Option (List XIdea) :=
  if recent.length < 2 then none
  else if ¬ ((recent.zip recent.tail).all
      (fun p => decide (p.2.started_at - p.1.ended_at ≤ 5000))) then none
  else if recent.getLastI.ended_at - recent.headI.started_at > 30000 then none
  else some recent

/-- _check_temporal_join: the same-speaker ideas, last three, sorted by
started_at; returns the group an exchange is created from, if any. -/
def check_temporal_join (pending : List XIdea) (user_id : Int) :
    Option (List XIdea) :=
  if (pending.filter (fun i => i.user_id == user_id)).length < 2 then none
  else
    joinCheck (sortByStarted
      ((pending.filter (fun i => i.user_id == user_id)).drop
        ((pending.filter (fun i => i.user_id == user_id)).length - 3)))

/-- The candidate-building loop of _check_semantic_relation
(exchange_detector.py lines 136-158): runs of ideas whose gap to the
previous idea is under 10 s; a run is kept only when it has at least two
ideas.  prev is the last element of cur. -/
def splitRuns (prev : XIdea) (cur : List XIdea) : List XIdea → List (List XIdea)
  | [] => if 2 ≤ cur.length then [cur] else []
  | x :: xs =>
      if x.started_at - prev.ended_at < 10000 then
        splitRuns x (cur ++ [x]) xs
      else
        (if 2 ≤ cur.length then [cur] else []) ++ splitRuns x [x] xs

/-- Run splitting plus the multi-speaker filter applied to the sorted recent
ideas (exchange_detector.py lines 136-164, speakers as a set modelled by
dedup length). -/
def semParse : List XIdea → List (List XIdea)
  | [] => []
  | r0 :: rs =>
      (splitRuns r0 [r0] rs).filter
        (fun c => 2 ≤ (c.map XIdea.user_id).dedup.length)

/-- _check_semantic_relation (exchange_detector.py lines 119-170): last five
pending ideas sorted by started_at, split into quick-response runs, keeping
runs with at least two distinct speakers. -/
def check_semantic_relation (pending : List XIdea) : List (List XIdea) :=
  if pending.length < 2 then []
  else semParse (sortByStarted (pending.drop (pending.length - 5)))

/-- The invariant C8 states for an exchange relative to its constituent
ideas. -/
def ExchangeInv (ideas : List XIdea) (X : Exchange) : Prop :=
  2 ≤ X.idea_ids.length ∧
  X.participant_user_ids.toFinset = (ideas.map XIdea.user_id).toFinset ∧
  (X.started_at ∈ ideas.map XIdea.started_at ∧
    ∀ i ∈ ideas, X.started_at ≤ i.started_at) ∧
  (X.ended_at ∈ ideas.map XIdea.ended_at ∧
    ∀ i ∈ ideas, i.ended_at ≤ X.ended_at)


lemma intMinList_le (x : Int) (xs : List Int) :
    intMinList (x :: xs) ∈ x :: xs ∧ ∀ y ∈ x :: xs, intMinList (x :: xs) ≤ y := by
  induction xs generalizing x with
  | nil => simp [intMinList]
  | cons y ys ih =>
      have h := ih y
      simp only [intMinList]
      constructor
      · rcases min_choice x (intMinList (y :: ys)) with hc | hc
        · rw [hc]
          exact List.mem_cons_self x (y :: ys)
        · rw [hc]
          exact List.mem_cons_of_mem x h.1
      · intro z hz
        rcases List.mem_cons.mp hz with hz | hz
        · subst hz
          exact min_le_left _ _
        · exact le_trans (min_le_right _ _) (h.2 z hz)

lemma intMaxList_ge (x : Int) (xs : List Int) :
    intMaxList (x :: xs) ∈ x :: xs ∧ ∀ y ∈ x :: xs, y ≤ intMaxList (x :: xs) := by
  induction xs generalizing x with
  | nil => simp [intMaxList]
  | cons y ys ih =>
      have h := ih y
      simp only [intMaxList]
      constructor
      · rcases max_choice x (intMaxList (y :: ys)) with hc | hc
        · rw [hc]
          exact List.mem_cons_self x (y :: ys)
        · rw [hc]
          exact List.mem_cons_of_mem x h.1
      · intro z hz
        rcases List.mem_cons.mp hz with hz | hz
        · subst hz
          exact le_max_left _ _
        · exact le_trans (h.2 z hz) (le_max_right _ _)

lemma create_exchange_inv (sid : String) (ideas : List XIdea)
    (h2 : 2 ≤ ideas.length) :
    ExchangeInv ideas (create_exchange sid ideas) := by
  obtain ⟨a, rest, rfl⟩ : ∃ a rest, ideas = a :: rest := by
    cases ideas with
    | nil => simp at h2
    | cons a rest => exact ⟨a, rest, rfl⟩
  refine ⟨?_, ?_, ?_, ?_⟩
  · simpa [create_exchange] using h2
  · have hP : (create_exchange sid (a :: rest)).participant_user_ids
        = ((a :: rest).map XIdea.user_id).dedup := rfl
    rw [hP]
    ext u
    simp [List.mem_dedup]
  · have hmin := intMinList_le a.started_at (rest.map XIdea.started_at)
    constructor
    · simpa [create_exchange] using hmin.1
    · intro i hi
      have : i.started_at ∈ a.started_at :: rest.map XIdea.started_at := by
        simpa using List.mem_map_of_mem XIdea.started_at hi
      simpa [create_exchange] using hmin.2 i.started_at this
  · have hmax := intMaxList_ge a.ended_at (rest.map XIdea.ended_at)
    constructor
    · simpa [create_exchange] using hmax.1
    · intro i hi
      have : i.ended_at ∈ a.ended_at :: rest.map XIdea.ended_at := by
        simpa using List.mem_map_of_mem XIdea.ended_at hi
      simpa [create_exchange] using hmax.2 i.ended_at this

lemma joinCheck_some (recent ideas : List XIdea)
    (h : joinCheck recent = some ideas) : ideas = recent ∧ 2 ≤ recent.length := by
  unfold joinCheck at h
  split_ifs at h with h1 h2 h3
  exact ⟨(Option.some.inj h).symm, by omega⟩

lemma splitRuns_len (rest : List XIdea) :
    ∀ prev cur c, c ∈ splitRuns prev cur rest → 2 ≤ c.length := by
  induction rest with
  | nil =>
      intro prev cur c hc
      unfold splitRuns at hc
      split_ifs at hc with h1
      · rw [List.mem_singleton.mp hc]
        exact h1
      · exact absurd hc (List.not_mem_nil c)
  | cons x xs ih =>
      intro prev cur c hc
      unfold splitRuns at hc
      split_ifs at hc with h1 h2
      · exact ih x (cur ++ [x]) c hc
      · rcases List.mem_append.mp hc with hc' | hc'
        · rw [List.mem_singleton.mp hc']
          exact h2
        · exact ih x [x] c hc'
      · rw [List.nil_append] at hc
        exact ih x [x] c hc

lemma semParse_len (l : List XIdea) :
    ∀ c ∈ semParse l, 2 ≤ c.length := by
  cases l with
  | nil =>
      intro c hc
      exact absurd hc (List.not_mem_nil c)
  | cons r0 rs =>
      intro c hc
      exact splitRuns_len rs r0 [r0] c (List.mem_filter.mp hc).1

/-- C8: every exchange the detector creates — by temporal join, by semantic
relation, or by the session-end flush — has at least two constituent ideas,
its participant set is exactly the set of the constituents' user ids, its
started_at is the minimum constituent started_at (attained by one of them),
and its ended_at is the maximum constituent ended_at. -/
theorem exchange_invariants (sid : String) (pending : List XIdea)
    (user_id : Int) :
    (∀ ideas, check_temporal_join pending user_id = some ideas →
        ExchangeInv ideas (create_exchange sid ideas)) ∧
    (∀ c ∈ check_semantic_relation pending,
        ExchangeInv c (create_exchange sid c)) ∧
    (2 ≤ pending.length → ExchangeInv pending (create_exchange sid pending)) := by
  refine ⟨?_, ?_, ?_⟩
  · intro ideas h
    unfold check_temporal_join at h
    split_ifs at h with h1
    obtain ⟨rfl, hlen⟩ := joinCheck_some _ _ h
    exact create_exchange_inv sid _ hlen
  · intro c hc
    unfold check_semantic_relation at hc
    split_ifs at hc with h1
    · exact absurd hc (List.not_mem_nil c)
    · exact create_exchange_inv sid c (semParse_len _ c hc)
  · intro h2
    exact create_exchange_inv sid pending h2

def w8a : XIdea := ⟨"idea-a", 1, 0, 900, "hello"⟩

def w8b : XIdea := ⟨"idea-b", 2, 1200, 2000, "hi there"⟩

/-- Witness for C8: a concrete two-idea session flushed at session end
produces an exchange satisfying the invariant. -/
theorem exchange_invariants_witness :
    2 ≤ ([w8a, w8b] : List XIdea).length ∧
    ExchangeInv [w8a, w8b] (create_exchange "s1" [w8a, w8b]) :=
  ⟨by decide, (exchange_invariants "s1" [w8a, w8b] 1).2.2 (by decide)⟩

/-- Row lookup by task id (SELECT ... WHERE id = t LIMIT 1). -/
def getRow (t : Nat) (s : QueueState) : Option QTask :=
  s.rows.find? (fun r => r.id == t)

/-- The claim loop of EnrichmentWorker._process_batch (worker.py lines
129-135): claim each task id in turn, keeping the ids whose claim
succeeded, in order. -/
def claimAll (now : Int) : List Nat → QueueState → List Nat × QueueState
  | [], s => ([], s)
  | t :: ts, s =>
      let c := claim_task now t s
      let rest := claimAll now ts c.2
      (if c.1 then t :: rest.1 else rest.1, rest.2)

/-- The settle loop of _process_batch (worker.py lines 160-167): for each
(claimed task, handler result) pair, complete on status 'complete',
otherwise fail with result.get('error', 'Unknown error'). -/
def settleResults (now : Int) : List (Nat × HRes) → QueueState → QueueState
  | [], s => s
  | (t, r) :: rest, s =>
      if r.status == "complete" then
        settleResults now rest (complete_task now t s).2
      else
        settleResults now rest (fail_task now t (r.error.getD "Unknown error") s).2

/-- _process_batch main path (worker.py lines 109-167, model already loaded,
handler returning normally): claim, stop if nothing claimed, then settle
zip(claimed_tasks, results) — which silently drops claimed tasks beyond
results.length. -/
def process_batch (now : Int) (tasks : List Nat) (results : List HRes)
    (s : QueueState) : QueueState :=
  let c := claimAll now tasks s
  if c.1.isEmpty then c.2
  else settleResults now (c.1.zip results) c.2

lemma find?_qid_map (l : List QTask) (g : QTask → QTask)
    (hg : ∀ r, (g r).id = r.id) (t : Nat) :
    (l.map g).find? (fun r => r.id == t) =
      (l.find? (fun r => r.id == t)).map g := by
  induction l with
  | nil => rfl
  | cons a l ih =>
      by_cases hc : (a.id == t) = true
      · have hgc : ((g a).id == t) = true := by rw [hg]; exact hc
        simp [List.find?_cons, hc, hgc]
      · have hc' : (a.id == t) = false := Bool.eq_false_iff.mpr hc
        have hgc : ((g a).id == t) = false := by rw [hg]; exact hc'
        simp [List.find?_cons, hc', hgc, ih]

lemma getRow_updateWhere (p : QTask → Bool) (f : QTask → QTask)
    (hf : ∀ r, (f r).id = r.id) (t : Nat) (s : QueueState) :
    getRow t (updateWhere p f s).2 =
      (getRow t s).map (fun r => if p r then f r else r) := by
  have hg : ∀ r, ((fun r => if p r then f r else r) r).id = r.id := by
    intro r
    by_cases hp : p r = true
    · simp [hp, hf]
    · simp [hp]
  exact find?_qid_map s.rows (fun r => if p r then f r else r) hg t

lemma rows_map_id_updateWhere (p : QTask → Bool) (f : QTask → QTask)
    (hf : ∀ r, (f r).id = r.id) (s : QueueState) :
    (updateWhere p f s).2.rows.map QTask.id = s.rows.map QTask.id := by
  show (s.rows.map (fun r => if p r then f r else r)).map QTask.id = _
  rw [List.map_map]
  apply List.map_congr_left
  intro r _
  by_cases hp : p r = true
  · simp [hp, hf]
  · simp [hp]

lemma getRow_claim_ne (now : Int) (t t' : Nat) (s : QueueState) (h : t' ≠ t) :
    getRow t' (claim_task now t s).2 = getRow t' s := by
  show getRow t' (updateWhere _ _ s).2 = _
  rw [getRow_updateWhere _ _ (by intro r; rfl)]
  cases hr : getRow t' s with
  | none => rfl
  | some r =>
      have hr' : s.rows.find? (fun x => x.id == t') = some r := hr
      have hp := List.find?_some hr'
      have hid : r.id = t' := by simpa using hp
      have hidt : (r.id == t) = false := by
        rw [hid]
        exact beq_eq_false_iff_ne.mpr h
      simp only [Option.map_some', hidt, Bool.false_and, Bool.false_eq_true, if_false]

lemma getRow_complete_ne (now : Int) (t t' : Nat) (s : QueueState) (h : t' ≠ t) :
    getRow t' (complete_task now t s).2 = getRow t' s := by
  show getRow t' (updateWhere _ _ s).2 = _
  rw [getRow_updateWhere _ _ (by intro r; rfl)]
  cases hr : getRow t' s with
  | none => rfl
  | some r =>
      have hr' : s.rows.find? (fun x => x.id == t') = some r := hr
      have hp := List.find?_some hr'
      have hid : r.id = t' := by simpa using hp
      have hidt : (r.id == t) = false := by
        rw [hid]
        exact beq_eq_false_iff_ne.mpr h
      simp only [Option.map_some', hidt, Bool.false_eq_true, if_false]

lemma getRow_fail_ne (now : Int) (t t' : Nat) (e : String) (s : QueueState)
    (h : t' ≠ t) :
    getRow t' (fail_task now t e s).2 = getRow t' s := by
  show getRow t' (updateWhere _ _ s).2 = _
  rw [getRow_updateWhere _ _ (by intro r; rfl)]
  cases hr : getRow t' s with
  | none => rfl
  | some r =>
      have hr' : s.rows.find? (fun x => x.id == t') = some r := hr
      have hp := List.find?_some hr'
      have hid : r.id = t' := by simpa using hp
      have hidt : (r.id == t) = false := by
        rw [hid]
        exact beq_eq_false_iff_ne.mpr h
      simp only [Option.map_some', hidt, Bool.false_eq_true, if_false]

lemma getRow_complete_self (now : Int) (t : Nat) (s : QueueState) (r₀ : QTask)
    (h : getRow t s = some r₀) :
    getRow t (complete_task now t s).2 =
      some { r₀ with status := "complete", completed_at := some now,
                     error := none } := by
  show getRow t (updateWhere _ _ s).2 = _
  rw [getRow_updateWhere _ _ (by intro r; rfl), h, Option.map_some']
  have hr' : s.rows.find? (fun x => x.id == t) = some r₀ := h
  have hp := List.find?_some hr'
  simp [hp]

lemma getRow_fail_self (now : Int) (t : Nat) (e : String) (s : QueueState)
    (r₀ : QTask) (h : getRow t s = some r₀) :
    getRow t (fail_task now t e s).2 =
      some { r₀ with status := "failed", completed_at := some now,
                     error := some e } := by
  show getRow t (updateWhere _ _ s).2 = _
  rw [getRow_updateWhere _ _ (by intro r; rfl), h, Option.map_some']
  have hr' : s.rows.find? (fun x => x.id == t) = some r₀ := h
  have hp := List.find?_some hr'
  simp [hp]

lemma claim_success_processing (now : Int) (t : Nat) (s : QueueState)
    (hnd : (s.rows.map QTask.id).Nodup) (h : (claim_task now t s).1 = true) :
    ∃ r, getRow t (claim_task now t s).2 = some r ∧ r.status = "processing" := by
  have hpos : 0 <
      (s.rows.filter (fun r => r.id == t && r.status == "pending")).length := by
    simpa [claim_task, updateWhere] using h
  have hne : s.rows.filter (fun r => r.id == t && r.status == "pending") ≠ [] := by
    intro hnil
    rw [hnil] at hpos
    exact absurd hpos (by simp)
  obtain ⟨r, hrmem⟩ := List.exists_mem_of_ne_nil _ hne
  obtain ⟨hmem, hcond⟩ := List.mem_filter.mp hrmem
  have hid : r.id = t := by
    have hc := hcond
    simp only [Bool.and_eq_true, beq_iff_eq] at hc
    exact hc.1
  have hpend : r.status = "pending" := by
    have hc := hcond
    simp only [Bool.and_eq_true, beq_iff_eq] at hc
    exact hc.2
  have hsome : (s.rows.find? (fun x => x.id == t)).isSome = true := by
    apply List.find?_isSome.mpr
    exact ⟨r, hmem, by simp [hid]⟩
  obtain ⟨r₀, hfind⟩ := Option.isSome_iff_exists.mp hsome
  have hmem0 := List.mem_of_find?_eq_some hfind
  have hid0 : r₀.id = t := by simpa using List.find?_some hfind
  have hreq : r₀ = r := List.inj_on_of_nodup_map hnd hmem0 hmem (by rw [hid0, hid])
  have hget : getRow t s = some r₀ := hfind
  have hp : (r₀.id == t && r₀.status == "pending") = true := by
    rw [hreq]
    simp [hid, hpend]
  refine ⟨{ r₀ with status := "processing", started_at := some now, attempts := r₀.attempts + 1 }, ?_, rfl⟩
  show getRow t (updateWhere _ _ s).2 = _
  rw [getRow_updateWhere _ _ (by intro r; rfl), hget, Option.map_some']
  simp [hp]

lemma claimAll_rows_id (now : Int) (ts : List Nat) :
    ∀ s, (claimAll now ts s).2.rows.map QTask.id = s.rows.map QTask.id := by
  induction ts with
  | nil => intro s; rfl
  | cons t ts ih =>
      intro s
      show (claimAll now ts (claim_task now t s).2).2.rows.map QTask.id = _
      rw [ih]
      exact rows_map_id_updateWhere _ _ (by intro r; rfl) s

lemma claimAll_sublist (now : Int) (ts : List Nat) :
    ∀ s, (claimAll now ts s).1.Sublist ts := by
  induction ts with
  | nil => intro s; exact List.Sublist.refl []
  | cons t ts ih =>
      intro s
      have he : (claimAll now (t :: ts) s).1 =
          (if (claim_task now t s).1 then
            t :: (claimAll now ts (claim_task now t s).2).1
           else (claimAll now ts (claim_task now t s).2).1) := rfl
      rw [he]
      by_cases hc : (claim_task now t s).1 = true
      · rw [if_pos hc]
        exact (ih _).cons₂ t
      · rw [if_neg hc]
        exact (ih _).cons t

lemma claimAll_getRow_notmem (now : Int) (ts : List Nat) :
    ∀ s t, t ∉ ts → getRow t (claimAll now ts s).2 = getRow t s := by
  induction ts with
  | nil => intro s t _; rfl
  | cons t' ts ih =>
      intro s t ht
      have h1 : t ∉ ts := fun hm => ht (List.mem_cons_of_mem _ hm)
      have h2 : t ≠ t' := fun he => ht (he ▸ List.mem_cons_self t' ts)
      show getRow t (claimAll now ts (claim_task now t' s).2).2 = _
      rw [ih _ t h1, getRow_claim_ne now t' t s h2]

lemma claimAll_processing (now : Int) (ts : List Nat) :
    ∀ s, ts.Nodup → (s.rows.map QTask.id).Nodup →
      ∀ t ∈ (claimAll now ts s).1,
        ∃ r, getRow t (claimAll now ts s).2 = some r ∧
          r.status = "processing" := by
  induction ts with
  | nil =>
      intro s _ _ t ht
      exact absurd ht (List.not_mem_nil t)
  | cons t' ts ih =>
      intro s hnodup hrows t ht
      have hnd2 : ((claim_task now t' s).2.rows.map QTask.id).Nodup := by
        have hpres : (claim_task now t' s).2.rows.map QTask.id =
            s.rows.map QTask.id :=
          rows_map_id_updateWhere _ _ (by intro r; rfl) s
        rw [hpres]
        exact hrows
      have he : (claimAll now (t' :: ts) s).1 =
          (if (claim_task now t' s).1 then
            t' :: (claimAll now ts (claim_task now t' s).2).1
           else (claimAll now ts (claim_task now t' s).2).1) := rfl
      have he2 : (claimAll now (t' :: ts) s).2 =
          (claimAll now ts (claim_task now t' s).2).2 := rfl
      rw [he] at ht
      rw [he2]
      by_cases hc : (claim_task now t' s).1 = true
      · rw [if_pos hc] at ht
        rcases List.mem_cons.mp ht with rfl | hmem
        · obtain ⟨r, hr, hst⟩ := claim_success_processing now t s hrows hc
          refine ⟨r, ?_, hst⟩
          rw [claimAll_getRow_notmem now ts _ t (List.nodup_cons.mp hnodup).1]
          exact hr
        · exact ih _ (List.nodup_cons.mp hnodup).2 hnd2 t hmem
      · rw [if_neg hc] at ht
        exact ih _ (List.nodup_cons.mp hnodup).2 hnd2 t ht

lemma settle_getRow_notmem (now : Int) (prs : List (Nat × HRes)) :
    ∀ s t, t ∉ prs.map Prod.fst →
      getRow t (settleResults now prs s) = getRow t s := by
  induction prs with
  | nil => intro s t _; rfl
  | cons q prs ih =>
      intro s t ht
      obtain ⟨t', res⟩ := q
      have h1 : t ∉ prs.map Prod.fst := fun hm => ht (List.mem_cons_of_mem _ hm)
      have h2 : t ≠ t' := fun he => ht (by rw [he]; exact List.mem_cons_self _ _)
      have heq : settleResults now ((t', res) :: prs) s =
          (if res.status == "complete" then
            settleResults now prs (complete_task now t' s).2
           else
            settleResults now prs
              (fail_task now t' (res.error.getD "Unknown error") s).2) := rfl
      rw [heq]
      by_cases hc : (res.status == "complete") = true
      · rw [if_pos hc, ih _ t h1, getRow_complete_ne now t' t s h2]
      · rw [if_neg hc, ih _ t h1, getRow_fail_ne now t' t _ s h2]

lemma settleResults_spec (now : Int) (prs : List (Nat × HRes)) :
    ∀ s, (prs.map Prod.fst).Nodup →
      (∀ p ∈ prs, ∃ r, getRow p.1 s = some r) →
      ∀ p ∈ prs,
        ∃ r, getRow p.1 (settleResults now prs s) = some r ∧
          r.status = (if p.2.status == "complete" then "complete" else "failed") ∧
          r.error = (if p.2.status == "complete" then none
                     else some (p.2.error.getD "Unknown error")) := by
  induction prs with
  | nil =>
      intro s _ _ p hp
      exact absurd hp (List.not_mem_nil p)
  | cons q prs ih =>
      intro s hnd hall p hp
      obtain ⟨t', res⟩ := q
      have heq : settleResults now ((t', res) :: prs) s =
          (if res.status == "complete" then
            settleResults now prs (complete_task now t' s).2
           else
            settleResults now prs
              (fail_task now t' (res.error.getD "Unknown error") s).2) := rfl
      have hnd' : (t' :: prs.map Prod.fst).Nodup := by simpa using hnd
      have hnm : t' ∉ prs.map Prod.fst := (List.nodup_cons.mp hnd').1
      have hndtail : (prs.map Prod.fst).Nodup := (List.nodup_cons.mp hnd').2
      rcases List.mem_cons.mp hp with rfl | hmem
      · obtain ⟨r₀, hr₀⟩ := hall (t', res) (List.mem_cons_self _ _)
        rw [heq]
        by_cases hc : (res.status == "complete") = true
        · rw [if_pos hc]
          refine ⟨{ r₀ with status := "complete", completed_at := some now, error := none }, ?_, ?_, ?_⟩
          · rw [settle_getRow_notmem now prs _ t' hnm]
            exact getRow_complete_self now t' s r₀ hr₀
          · rw [if_pos hc]
          · rw [if_pos hc]
        · rw [if_neg hc]
          refine ⟨{ r₀ with status := "failed", completed_at := some now, error := some (res.error.getD "Unknown error") }, ?_, ?_, ?_⟩
          · rw [settle_getRow_notmem now prs _ t' hnm]
            exact getRow_fail_self now t' _ s r₀ hr₀
          · rw [if_neg hc]
          · rw [if_neg hc]
      · have hne : ∀ q' ∈ prs, q'.1 ≠ t' := by
          intro q' hq' he
          exact hnm (he ▸ List.mem_map_of_mem Prod.fst hq')
        rw [heq]
        by_cases hc : (res.status == "complete") = true
        · rw [if_pos hc]
          refine ih _ hndtail ?_ p hmem
          intro q' hq'
          obtain ⟨r, hr⟩ := hall q' (List.mem_cons_of_mem _ hq')
          exact ⟨r, by rw [getRow_complete_ne now t' q'.1 s (hne q' hq')]; exact hr⟩
        · rw [if_neg hc]
          refine ih _ hndtail ?_ p hmem
          intro q' hq'
          obtain ⟨r, hr⟩ := hall q' (List.mem_cons_of_mem _ hq')
          exact ⟨r, by rw [getRow_fail_ne now t' q'.1 _ s (hne q' hq')]; exact hr⟩

lemma map_fst_zip_take : ∀ (l₁ : List Nat) (l₂ : List HRes),
    (l₁.zip l₂).map Prod.fst = l₁.take l₂.length
  | [], _ => by simp
  | _ :: _, [] => by simp
  | a :: l₁, b :: l₂ => by
      simp only [List.zip_cons_cons, List.map_cons, List.length_cons,
        List.take_succ_cons]
      rw [map_fst_zip_take l₁ l₂]

/-- C10: in a worker batch whose handler returns fewer results than there are
claimed tasks, every claimed task beyond the results list is left in status
'processing' (neither completed nor failed by the batch), while each claimed
task paired with a result is completed when the result's status is 'complete'
and failed with the result's error (default 'Unknown error') otherwise. -/
theorem process_batch_spec (now : Int) (tasks : List Nat) (results : List HRes)
    (s : QueueState) (hts : tasks.Nodup) (hrows : (s.rows.map QTask.id).Nodup) :
    (∀ t ∈ (claimAll now tasks s).1.drop results.length,
        ∃ r, getRow t (process_batch now tasks results s) = some r ∧
          r.status = "processing") ∧
    (∀ p ∈ (claimAll now tasks s).1.zip results,
        ∃ r, getRow p.1 (process_batch now tasks results s) = some r ∧
          r.status = (if p.2.status == "complete" then "complete" else "failed") ∧
          r.error = (if p.2.status == "complete" then none
                     else some (p.2.error.getD "Unknown error"))) := by
  have hsub := claimAll_sublist now tasks s
  have hclnd : (claimAll now tasks s).1.Nodup := hsub.nodup hts
  have hproc := claimAll_processing now tasks s hts hrows
  by_cases hempty : (claimAll now tasks s).1.isEmpty = true
  · have hnil : (claimAll now tasks s).1 = [] := by
      exact List.isEmpty_iff.mp hempty
    constructor
    · intro t ht
      rw [hnil] at ht
      simp at ht
    · intro p hp
      rw [hnil] at hp
      simp at hp
  · have hpb : process_batch now tasks results s =
        (if (claimAll now tasks s).1.isEmpty then (claimAll now tasks s).2
         else settleResults now ((claimAll now tasks s).1.zip results)
           (claimAll now tasks s).2) := rfl
    rw [hpb, if_neg hempty]
    constructor
    · intro t ht
      have htk : t ∉ (claimAll now tasks s).1.take results.length := by
        intro htake
        have hnd := hclnd
        rw [← List.take_append_drop results.length (claimAll now tasks s).1]
          at hnd
        exact (List.nodup_append.mp hnd).2.2 htake ht
      have hnm : t ∉ ((claimAll now tasks s).1.zip results).map Prod.fst := by
        rw [map_fst_zip_take]
        exact htk
      rw [settle_getRow_notmem now _ _ t hnm]
      exact hproc t (List.mem_of_mem_drop ht)
    · intro p hp
      refine settleResults_spec now ((claimAll now tasks s).1.zip results)
        (claimAll now tasks s).2 ?_ ?_ p hp
      · rw [map_fst_zip_take]
        exact (List.take_sublist _ _).nodup hclnd
      · intro q hq
        obtain ⟨a, b⟩ := q
        obtain ⟨r, hr, _⟩ := hproc a (List.of_mem_zip hq).1
        exact ⟨r, hr⟩

def w10row : QTask :=
  { id := 0, target_type := "idea", target_id := "7", task_type := "intent_keywords",
    priority := 2, status := "pending", created_at := 0, started_at := none,
    completed_at := none, attempts := 0, error := none }

def w10state : QueueState := { rows := [w10row], nextId := 1 }

/-- Witness for C10: a batch claiming one pending task whose handler returns
no results leaves the claimed task in 'processing'. -/
theorem process_batch_spec_witness :
    ([0, 1] : List Nat).Nodup ∧ (w10state.rows.map QTask.id).Nodup ∧
    (∀ t ∈ (claimAll 5 [0, 1] w10state).1.drop ([] : List HRes).length,
        ∃ r, getRow t (process_batch 5 [0, 1] [] w10state) = some r ∧
          r.status = "processing") :=
  ⟨by decide, by decide,
   (process_batch_spec 5 [0, 1] [] w10state (by decide) (by decide)).1⟩
